import Mathlib

/-!
# Synthetic memory-access benchmarks: `randpd.c` and `rpd.c`

A shallow embedding of the two buffer-driven benchmarks of
`syntheticbenchmarks/` and of the properties their specification states.

Conventions of the embedding.

* `unsigned long long` and `size_t` values are natural numbers below `2 ^ 64`;
  every arithmetic result is reduced modulo `2 ^ 64` (`wrap`).
* `long long`, `long` and `int` values are integers; a `long long` result is
  brought back into `[-2 ^ 63, 2 ^ 63)` by `toS64`, a conversion to an unsigned
  64-bit type is `toU64`.  Signed overflow, which C leaves undefined, wraps
  in the model; the hypotheses of the results below keep every signed
  operation in range, so none of them rests on a wrapped signed result.
* The globals of a program (`doInit`, `progress`, `completion`, `junk`, ...)
  and the pointer `a` are the fields of its `State`; a statement is a function
  on states.
* A `for` loop is a recursive function on a fuel argument whose body follows
  the loop's condition, body and increment; it halts with `Halt.outOfFuel`
  when the fuel runs out.
* Each loop of a run draws on its own copy of the fuel; no loop of a run on
  64-bit inputs iterates `2 ^ 64` times, so the results below are stated for
  every fuel of at least `2 ^ 64`.
* The fields `stores`, `loads`, `delayIters` and `progressLog` of a state are
  instrumentation: they record the cells written by the initialisation loop,
  the cells read by the access loops, the executions of a delay-loop body and
  the successive values of `progress`; they never influence a run.
* Printing, the timestamps and the installation of the signal handlers do not
  change the state and are left out; `report(0)` only prints.
-/

namespace Contention

/-! ## Machine integers -/

/-- Reduction of a natural number to 64 bits. -/
def wrap (n : Nat) : Nat := n % 2 ^ 64

/-- Conversion of a signed integer to `unsigned long long`. -/
def toU64 (x : Int) : Nat := (x % 2 ^ 64).toNat

/-- Conversion of a 64-bit pattern to `long long` (two's complement). -/
def toS64 (n : Nat) : Int :=
  if wrap n < 2 ^ 63 then (wrap n : Int) else (wrap n : Int) - 2 ^ 64

/-- Signed 64-bit result of an integer expression (wraps around). -/
def wrapS (x : Int) : Int := toS64 (toU64 x)

/-- Unsigned 64-bit subtraction. -/
def subU64 (x y : Nat) : Nat := wrap (wrap x + (2 ^ 64 - wrap y))

/-- The value of `sizeof(long)` on the LP64 targets of the benchmarks. -/
def sizeofLong : Nat := 8

/-- Largest value returned by `rand()` (the C library's constant, `2 ^ 31 - 1`
in glibc). -/
def RAND_MAX : Nat := 2147483647

/-! ## Outcomes and the buffer -/

/-- The ways a run stops other than by returning from `main`. -/
inductive Halt where
  /-- Call of `exit(code)`. -/
  | exit (code : Nat)
  /-- Integer division or remainder with a zero divisor. -/
  | divByZero
  /-- Access outside the mapped buffer, or through a missing `argv` entry. -/
  | badAccess
  /-- The fuel of a loop of the model ran out. -/
  | outOfFuel
  deriving DecidableEq, Repr

/-- The region returned by `mmap`: `len` cells of type `long`. -/
structure Buffer where
  len : Nat
  cell : Nat → Int

/-- Model of `mmap(NULL, length, ..., MAP_ANONYMOUS, ...)`: a zero-filled
anonymous mapping of `length` bytes, that is `length / sizeof(long)` cells.
A request of 0 bytes fails; the source does not check the result, and every
access through it is then outside the buffer (`len = 0`).  A request of a
positive length is taken to succeed, and the rounding of the mapping to whole
pages is left out. -/
def mmap (length : Nat) : Buffer := { len := length / sizeofLong, cell := fun _ => 0 }

/-- Assignment `a[i] = v`. -/
def Buffer.set (b : Buffer) (i : Nat) (v : Int) : Buffer :=
  { b with cell := fun j => if j = i then v else b.cell j }

/-- First character of a C string (`'\0'` for the empty string). -/
def firstChar (s : String) : Char := s.data.headD (Char.ofNat 0)

/-! ## Program state -/

/-- The globals of a benchmark, the pointer `a` of its `main`, and the
instrumentation.  `doOuterLoop` is a global of `rpd.c` only: `randpd.c`
neither reads nor writes it. -/
structure State where
  doInit : Int
  doOuterLoop : Int
  progress : Nat
  completion : Nat
  junk : Int
  a : Option Buffer
  stores : List Nat
  loads : List Nat
  delayIters : Nat
  progressLog : List Nat

/-- State at program start: the initialisers of the globals. -/
def State.start : State :=
  { doInit := 1, doOuterLoop := 0, progress := 0, completion := 0, junk := 0, a := none,
    stores := [], loads := [], delayIters := 0, progressLog := [] }

/-- A computation that may halt, keeping the state at the halt. -/
abbrev Run (α : Type) := Except (Halt × State) α

/-- Assignment to the volatile global `progress`. -/
def setProgress (s : State) (v : Nat) : State :=
  { s with progress := v, progressLog := s.progressLog ++ [v] }

/-- Statement `a[i] = v` of an initialisation loop. -/
def store (s : State) (i : Nat) (v : Int) : Run State :=
  match s.a with
  | some b =>
    if i < b.len then .ok { s with a := some (b.set i v), stores := s.stores ++ [i] }
    else .error (Halt.badAccess, s)
  | none => .error (Halt.badAccess, s)

/-- Read of `a[i]` in an access loop. -/
def load (s : State) (i : Nat) : Run (Int × State) :=
  match s.a with
  | some b =>
    if i < b.len then .ok (b.cell i, { s with loads := s.loads ++ [i] })
    else .error (Halt.badAccess, s)
  | none => .error (Halt.badAccess, s)

/-- Entry `argv[k]` of the argument vector; the list holds `argv[1]`,
`argv[2]`, ..., and a missing entry is a null pointer. -/
def argAt (argv : List String) (k : Nat) (s : State) : Run String :=
  match argv.get? (k - 1) with
  | some x => .ok x
  | none => .error (Halt.badAccess, s)

/-! ## Notions used to state the properties -/

/-- The leading arguments that begin with `'-'`. -/
def leading (args : List String) : List String :=
  args.takeWhile (fun x => decide (firstChar x = '-'))

/-- Values taken by `progress` in `c` successive additions of `u`, starting
from the value `p`. -/
def logExt (p u c : Nat) : List Nat :=
  (List.range' 1 c).map (fun k => wrap (p + k * u))

/-- The buffer after the value 1 was written to the cells listed in `L`. -/
def Buffer.fill (b : Buffer) (L : List Nat) : Buffer :=
  { b with cell := fun j => if j ∈ L then 1 else b.cell j }

/-- State reached from `s`, whose buffer is `b`, by the initialisation steps
that write the cells listed in `L`, in that order. -/
def State.afterStores (s : State) (b : Buffer) (L : List Nat) : State :=
  { s with progress := wrap (s.progress + L.length),
           a := some (b.fill L),
           stores := s.stores ++ L,
           progressLog := s.progressLog ++ logExt s.progress 1 L.length }

/-- State reached from `s` by the access steps that read the cells listed in
`L`, in that order, when each read yields the value `u`, each access is
followed by `K` delay iterations, and `junk` ends with the value `j`. -/
def State.afterLoads (s : State) (u K : Nat) (L : List Nat) (j : Int) : State :=
  { s with progress := wrap (s.progress + L.length * u),
           junk := j,
           loads := s.loads ++ L,
           delayIters := s.delayIters + L.length * K,
           progressLog := s.progressLog ++ logExt s.progress u L.length }

/-- The indices `arraySize - stride`, `arraySize - 2*stride`, ..., the first
`c` terms. -/
def strideIdx (arraySize stride c : Nat) : List Nat :=
  (List.range c).map (fun k => arraySize - (k + 1) * stride)

/-- The list `L` repeated `n` times. -/
def repeatList : Nat → List Nat → List Nat
  | 0, _ => []
  | n + 1, L => L ++ repeatList n L

/-- The values of the type `int`. -/
def IsInt (x : Int) : Prop := -2 ^ 31 ≤ x ∧ x < 2 ^ 31

instance (x : Int) : Decidable (IsInt x) := by unfold IsInt; infer_instance

/-- The indices visited by one pass of the strided loops: none when the
initial index `arraySize - stride` is negative as a `long long`. -/
def passIdx (arraySize stride : Nat) : List Nat :=
  if arraySize < 2 ^ 63 + stride then strideIdx arraySize stride (arraySize / stride) else []

/-- State of a run when its loops start: the start state with the flags set
by `handleOpts`, the buffer `B` mapped and `completion` assigned. -/
def loopState (di d : Int) (B : Buffer) (C : Nat) : State :=
  { State.start with doInit := di, doOuterLoop := d, a := some B, completion := C }

/-- Value of a field of the final state of a run that returned from `main`. -/
def finalValue {α : Type} (f : State → α) (r : Run State) : Option α :=
  match r with
  | .ok s => some (f s)
  | .error _ => none

/-- How a run halted, and whether the buffer was mapped at that point. -/
def haltOf (r : Run State) : Option (Halt × Bool) :=
  match r with
  | .ok _ => none
  | .error (h, s) => some (h, s.a.isSome)

/-- How a run halted, with the value of a field of the state at that point. -/
def haltValue {α : Type} (f : State → α) (r : Run State) : Option (Halt × α) :=
  match r with
  | .ok _ => none
  | .error (h, s) => some (h, f s)

/-! ## `randpd.c`: uniform random accesses -/

namespace Randpd

/-- Source `handleOpts(argc, args)`, `randpd.c` lines 44-52; `argc` is the
length of the list. -/
def handleOpts : List String → State → Run (Nat × State)
  | [], s => .ok (0, s)
  | arg :: rest, s =>
    if firstChar arg ≠ '-' then .ok (0, s)
    else if arg = "-no-init" then
      match handleOpts rest { s with doInit := 0 } with
      | .ok (n, s1) => .ok (1 + n, s1)
      | .error e => .error e
    else .error (Halt.exit 1, s)

/-- Index expression `rand() % arraySize`: the `int` result of `rand()` is
converted to `unsigned long long`; `none` stands for a zero divisor. -/
def randIndex (r : Int) (arraySize : Nat) : Option Nat :=
  if arraySize = 0 then none else some (toU64 r % arraySize)

/-- Delay loop `for (l = 0; l < delay; l++) junk = junk + (i - l);`,
`randpd.c` lines 94-96: `l` is `unsigned long long`, so `delay` is converted
to unsigned for the comparison and the sum is computed unsigned. -/
def delayLoop (delay : Int) (i : Nat) : Nat → Nat → State → Run State
  | 0, _, s => .error (Halt.outOfFuel, s)
  | fuel + 1, l, s =>
    if l < toU64 delay then
      delayLoop delay i fuel (wrap (l + 1))
        { s with junk := toS64 (wrap (toU64 s.junk + subU64 i l)),
                 delayIters := s.delayIters + 1 }
    else .ok s

/-- Initialisation loop `for (i = 0; i < arraySize; i++, progress++) a[i] = 1;`,
`randpd.c` lines 86-87. -/
def initLoop (arraySize : Nat) : Nat → Nat → State → Run State
  | 0, _, s => .error (Halt.outOfFuel, s)
  | fuel + 1, i, s =>
    if i < arraySize then
      match store s i 1 with
      | .ok s1 => initLoop arraySize fuel (wrap (i + 1)) (setProgress s1 (wrap (s1.progress + 1)))
      | .error e => .error e
    else .ok s

/-- Access loop, `randpd.c` lines 92-97.  `rand k` is the value returned by
the `k`-th call of `rand()`; iteration `i` makes call number `i`. -/
def accessLoop (rand : Nat → Int) (arraySize accesses : Nat) (delay : Int) (dfuel : Nat) :
    Nat → Nat → State → Run State
  | 0, _, s => .error (Halt.outOfFuel, s)
  | fuel + 1, i, s =>
    if i < accesses then
      match randIndex (rand i) arraySize with
      | none => .error (Halt.divByZero, s)
      | some idx =>
        match load s idx with
        | .error e => .error e
        | .ok (v, s1) =>
          match delayLoop delay i dfuel 0 (setProgress s1 (wrap (s1.progress + toU64 v))) with
          | .error e => .error e
          | .ok s2 => accessLoop rand arraySize accesses delay dfuel fuel (wrap (i + 1)) s2
    else .ok s

/-- Body of `main` from the `mmap` call to `report(0)`, `randpd.c` lines
73-101, for the values `arraySize`, `accesses` and `delay` read from the
command line.  The length passed to `mmap` is the `size_t` product
`sizeof(long) * arraySize`. -/
def mainBody (fuel : Nat) (rand : Nat → Int) (arraySize accesses : Nat) (delay : Int)
    (s : State) : Run State :=
  let s1 := { s with a := some (mmap (wrap (sizeofLong * arraySize))) }
  let s2 := { s1 with completion := wrap (arraySize + accesses) }
  match (if s2.doInit ≠ 0 then initLoop arraySize fuel 0 s2 else .ok s2) with
  | .error e => .error e
  | .ok s3 => accessLoop rand arraySize accesses delay fuel fuel 0 s3

/-- Source `main`, `randpd.c` lines 54-106.  `strtoull` and `atoi` are the C
library's conversions; `argv` lists the arguments after the program name. -/
def main (fuel : Nat) (rand : Nat → Int) (strtoull : String → Nat) (atoi : String → Int)
    (argv : List String) : Run State :=
  match handleOpts argv State.start with
  | .error e => .error e
  | .ok (numFlags, s) =>
    match argAt argv (numFlags + 1) s, argAt argv (numFlags + 2) s, argAt argv (numFlags + 3) s with
    | .ok x1, .ok x2, .ok x3 => mainBody fuel rand (strtoull x1) (strtoull x2) (atoi x3) s
    | _, _, _ => .error (Halt.badAccess, s)

end Randpd

/-! ## Counting the outputs of `rand()` -/

/-- Number of values `r` in `[0, RAND_MAX]` for which `rand() % arraySize`
selects `index`. -/
def selectors (arraySize index : Nat) : Nat :=
  Nat.count (fun r : Nat => Randpd.randIndex (r : Int) arraySize = some index) (RAND_MAX + 1)

/-! ## `rpd.c`: reverse strided accesses -/

namespace Rpd

/-- Source `handleOpts(argc, args)`, `rpd.c` lines 51-60; `argc` is the length
of the list. -/
def handleOpts : List String → State → Run (Nat × State)
  | [], s => .ok (0, s)
  | arg :: rest, s =>
    if firstChar arg ≠ '-' then .ok (0, s)
    else if arg = "-no-init" then
      match handleOpts rest { s with doInit := 0 } with
      | .ok (n, s1) => .ok (1 + n, s1)
      | .error e => .error e
    else if arg = "-with-outer-loop" then
      match handleOpts rest { s with doOuterLoop := 1 } with
      | .ok (n, s1) => .ok (1 + n, s1)
      | .error e => .error e
    else .error (Halt.exit 1, s)

/-- Working-set estimate, `rpd.c` lines 79-85, with `elementSize = sizeof(long)`
and `cacheLineSize = 64`: `stride` is converted to `size_t`; `none` stands for
a division with a zero divisor. -/
def workingSetSize (arraySize : Nat) (stride : Int) : Option Nat :=
  if wrap (toU64 stride * sizeofLong) > 64 then
    if toU64 stride = 0 then none else some (wrap (64 * arraySize) / toU64 stride)
  else some (wrap (arraySize * sizeofLong))

/-- Value of `outloop`, `rpd.c` line 98. -/
def outloopOf (doOuterLoop : Int) (stride : Int) : Int :=
  if doOuterLoop ≠ 0 then stride else 1

/-- Right-hand side of the assignment to `completion`, `rpd.c` line 100:
`arraySize / stride` is an unsigned division, `reps * outloop` a `long long`
product which is converted to unsigned for the second product. -/
def completionOf (arraySize : Nat) (stride reps outloop : Int) : Option Nat :=
  if toU64 stride = 0 then none
  else some (wrap (arraySize / toU64 stride
    + wrap (toU64 (wrapS (reps * outloop)) * (arraySize / toU64 stride))))

/-- Initial value `arraySize - stride` of the `long long` index `i`. -/
def firstIndex (arraySize : Nat) (stride : Int) : Int :=
  toS64 (subU64 arraySize (toU64 stride))

/-- Initialisation loop
`for (i = arraySize-stride; i >= 0; i-=stride, progress++) a[i] = 1;`,
`rpd.c` lines 105-106. -/
def initLoop (stride : Int) : Nat → Int → State → Run State
  | 0, _, s => .error (Halt.outOfFuel, s)
  | fuel + 1, i, s =>
    if 0 ≤ i then
      match store s i.toNat 1 with
      | .ok s1 => initLoop stride fuel (wrapS (i - stride)) (setProgress s1 (wrap (s1.progress + 1)))
      | .error e => .error e
    else .ok s

/-- Delay loop `for (l = 0; l < delay; l++) junk = junk + (i - j + k - l);`,
`rpd.c` lines 114-116; all operands are `long long`. -/
def delayLoop (delay i j k : Int) : Nat → Int → State → Run State
  | 0, _, s => .error (Halt.outOfFuel, s)
  | fuel + 1, l, s =>
    if l < delay then
      delayLoop delay i j k fuel (wrapS (l + 1))
        { s with junk := wrapS (s.junk + (i - j + k - l)),
                 delayIters := s.delayIters + 1 }
    else .ok s

/-- Innermost access loop `for (i = arraySize-stride; i >= 0; i-=stride)`,
`rpd.c` lines 112-117: one pass over the buffer. -/
def passLoop (stride delay j k : Int) (dfuel : Nat) : Nat → Int → State → Run State
  | 0, _, s => .error (Halt.outOfFuel, s)
  | fuel + 1, i, s =>
    if 0 ≤ i then
      match load s i.toNat with
      | .error e => .error e
      | .ok (v, s1) =>
        match delayLoop delay i j k dfuel 0 (setProgress s1 (wrap (s1.progress + toU64 v))) with
        | .error e => .error e
        | .ok s2 => passLoop stride delay j k dfuel fuel (wrapS (i - stride)) s2
    else .ok s

/-- Loop `for (j = 0; j < outloop; j++)`, `rpd.c` line 111. -/
def outerLoop (arraySize : Nat) (stride delay outloop k : Int) (ifuel : Nat) :
    Nat → Int → State → Run State
  | 0, _, s => .error (Halt.outOfFuel, s)
  | fuel + 1, j, s =>
    if j < outloop then
      match passLoop stride delay j k ifuel ifuel (firstIndex arraySize stride) s with
      | .error e => .error e
      | .ok s1 => outerLoop arraySize stride delay outloop k ifuel fuel (wrapS (j + 1)) s1
    else .ok s

/-- Loop `for (k = 0; k < reps; k++)`, `rpd.c` lines 110-118. -/
def repLoop (arraySize : Nat) (stride reps delay outloop : Int) (ifuel : Nat) :
    Nat → Int → State → Run State
  | 0, _, s => .error (Halt.outOfFuel, s)
  | fuel + 1, k, s =>
    if k < reps then
      match outerLoop arraySize stride delay outloop k ifuel ifuel 0 s with
      | .error e => .error e
      | .ok s1 => repLoop arraySize stride reps delay outloop ifuel fuel (wrapS (k + 1)) s1
    else .ok s

/-- Body of `main` from the working-set estimate to `report(0)`, `rpd.c`
lines 78-121, for the values `arraySize`, `stride`, `reps` and `delay` read
from the command line. -/
def mainBody (fuel : Nat) (arraySize : Nat) (stride reps delay : Int) (s : State) : Run State :=
  match workingSetSize arraySize stride with
  | none => .error (Halt.divByZero, s)
  | some _ =>
    let s1 := { s with a := some (mmap (wrap (sizeofLong * arraySize))) }
    let outloop := outloopOf s1.doOuterLoop stride
    match completionOf arraySize stride reps outloop with
    | none => .error (Halt.divByZero, s1)
    | some c =>
      let s2 := { s1 with completion := c }
      match (if s2.doInit ≠ 0 then initLoop stride fuel (firstIndex arraySize stride) s2
             else .ok s2) with
      | .error e => .error e
      | .ok s3 => repLoop arraySize stride reps delay outloop fuel fuel 0 s3

/-- Source `main`, `rpd.c` lines 62-126.  `strtoull` and `atoi` are the C
library's conversions; `argv` lists the arguments after the program name. -/
def main (fuel : Nat) (strtoull : String → Nat) (atoi : String → Int)
    (argv : List String) : Run State :=
  match handleOpts argv State.start with
  | .error e => .error e
  | .ok (numFlags, s) =>
    match argAt argv (numFlags + 1) s, argAt argv (numFlags + 2) s,
        argAt argv (numFlags + 3) s, argAt argv (numFlags + 4) s with
    | .ok x1, .ok x2, .ok x3, .ok x4 =>
      mainBody fuel (strtoull x1) (atoi x2) (atoi x3) (atoi x4) s
    | _, _, _, _ => .error (Halt.badAccess, s)

end Rpd

/-! ## Machine integers and loops of `randpd.c` -/

theorem wrap_of_lt {n : Nat} (h : n < 2 ^ 64) : wrap n = n := Nat.mod_eq_of_lt h

theorem wrap_lt (n : Nat) : wrap n < 2 ^ 64 := Nat.mod_lt _ (by norm_num)

theorem wrap_add_wrap (a b : Nat) : wrap (wrap a + b) = wrap (a + b) := by
  simp [wrap, Nat.add_mod]

theorem toU64_lt (x : Int) : toU64 x < 2 ^ 64 := by
  unfold toU64
  have h1 : x % 2 ^ 64 < 2 ^ 64 := Int.emod_lt_of_pos _ (by norm_num)
  have h2 : 0 ≤ x % 2 ^ 64 := Int.emod_nonneg _ (by norm_num)
  omega

theorem toU64_of_nonneg {x : Int} (h0 : 0 ≤ x) (h1 : x < 2 ^ 64) : (toU64 x : Int) = x := by
  unfold toU64
  rw [Int.emod_eq_of_lt h0 h1]
  omega

theorem toU64_natCast {n : Nat} (h : n < 2 ^ 64) : toU64 (n : Int) = n := by
  have := @toU64_of_nonneg (n : Int) (by omega) (by exact_mod_cast h)
  exact_mod_cast this

theorem toS64_of_lt {n : Nat} (h : n < 2 ^ 63) : toS64 n = n := by
  have h1 : wrap n = n := wrap_of_lt (by omega)
  unfold toS64
  rw [h1, if_pos h]

theorem toS64_of_ge {n : Nat} (h : 2 ^ 63 ≤ n) (h1 : n < 2 ^ 64) : toS64 n = (n : Int) - 2 ^ 64 := by
  have h2 : wrap n = n := wrap_of_lt h1
  have h3 : ¬ n < 2 ^ 63 := by omega
  unfold toS64
  rw [h2, if_neg h3]

theorem wrapS_of_range {x : Int} (h0 : -2 ^ 63 ≤ x) (h1 : x < 2 ^ 63) : wrapS x = x := by
  unfold wrapS
  by_cases hx : 0 ≤ x
  · have h2 := toU64_of_nonneg hx (by omega)
    have h3 : toU64 x < 2 ^ 63 := by omega
    rw [toS64_of_lt h3, h2]
  · have h2 : (toU64 x : Int) = x + 2 ^ 64 := by
      unfold toU64
      have : x % 2 ^ 64 = x + 2 ^ 64 := by
        rw [← Int.add_emod_self, Int.emod_eq_of_lt (by omega) (by omega)]
      rw [this]; omega
    have h3 : 2 ^ 63 ≤ toU64 x := by omega
    rw [toS64_of_ge h3 (toU64_lt x), h2]; ring

theorem logExt_zero (p u : Nat) : logExt p u 0 = [] := rfl

theorem logExt_one (p u : Nat) : logExt p u 1 = [wrap (p + u)] := by
  simp [logExt]

theorem logExt_add (p u c1 c2 : Nat) :
    logExt p u (c1 + c2) = logExt p u c1 ++ logExt (wrap (p + c1 * u)) u c2 := by
  unfold logExt
  rw [Nat.add_comm c1 c2, ← List.range'_append_1 1 c1 c2, List.map_append,
    Nat.add_comm 1 c1, ← List.map_add_range' c1 1 c2 1, List.map_map]
  congr 1
  apply List.map_congr_left
  intro k _
  simp only [Function.comp_apply, wrap_add_wrap]
  congr 1
  ring

theorem length_logExt (p u c : Nat) : (logExt p u c).length = c := by
  simp [logExt]

theorem Buffer.fill_nil (b : Buffer) : b.fill [] = b := by
  simp [Buffer.fill]

theorem Buffer.set_one (b : Buffer) (i : Nat) : b.set i 1 = b.fill [i] := by
  simp [Buffer.fill, Buffer.set]

theorem Buffer.fill_fill (b : Buffer) (L1 L2 : List Nat) :
    (b.fill L1).fill L2 = b.fill (L1 ++ L2) := by
  simp only [Buffer.fill, Buffer.mk.injEq, true_and]
  funext j
  by_cases h2 : j ∈ L2 <;> by_cases h1 : j ∈ L1 <;> simp [h1, h2]

theorem State.afterStores_append (s : State) (b : Buffer) (L1 L2 : List Nat) :
    (s.afterStores b L1).afterStores (b.fill L1) L2 = s.afterStores b (L1 ++ L2) := by
  simp only [State.afterStores, Buffer.fill_fill, List.length_append, logExt_add, mul_one,
    wrap_add_wrap, List.append_assoc, Nat.add_assoc]

theorem State.afterLoads_append (s : State) (u K : Nat) (L1 L2 : List Nat) (j1 j2 : Int) :
    (s.afterLoads u K L1 j1).afterLoads u K L2 j2 = s.afterLoads u K (L1 ++ L2) j2 := by
  simp only [State.afterLoads, List.length_append, logExt_add,
    wrap_add_wrap, List.append_assoc, Nat.add_assoc, Nat.add_mul]

theorem State.afterStores_nil (s : State) (b : Buffer) (hb : s.a = some b)
    (hp : s.progress < 2 ^ 64) : s.afterStores b [] = s := by
  cases s
  simp_all [State.afterStores, Buffer.fill_nil, logExt_zero, wrap_of_lt]

theorem State.afterLoads_nil (s : State) (u K : Nat) (hp : s.progress < 2 ^ 64) :
    s.afterLoads u K [] s.junk = s := by
  cases s
  simp_all [State.afterLoads, logExt_zero, wrap_of_lt]

theorem toU64_one : toU64 1 = 1 := by decide
theorem toU64_zero : toU64 0 = 0 := by decide

theorem len_mmap_mod (A : Nat) : (mmap (wrap (sizeofLong * A))).len = A % 2 ^ 61 := by
  simp only [mmap, wrap, sizeofLong]
  omega

theorem len_mmap_of_lt {A : Nat} (h : A < 2 ^ 61) : (mmap (wrap (sizeofLong * A))).len = A := by
  rw [len_mmap_mod]
  omega

theorem len_mmap_of_ge {A : Nat} (h : 2 ^ 61 ≤ A) :
    (mmap (wrap (sizeofLong * A))).len + 2 ^ 61 ≤ A := by
  rw [len_mmap_mod]
  omega

theorem shape_fields (di d : Int) (B b : Buffer) (C : Nat) (Ls Ll : List Nat) (u K : Nat)
    (j : Int) :
    (((loopState di d B C).afterStores b Ls).afterLoads u K Ll j).completion = C
    ∧ (((loopState di d B C).afterStores b Ls).afterLoads u K Ll j).stores = Ls
    ∧ (((loopState di d B C).afterStores b Ls).afterLoads u K Ll j).loads = Ll
    ∧ (((loopState di d B C).afterStores b Ls).afterLoads u K Ll j).progress
        = wrap (Ls.length + Ll.length * u)
    ∧ (((loopState di d B C).afterStores b Ls).afterLoads u K Ll j).progressLog
        = logExt 0 1 Ls.length ++ logExt (wrap Ls.length) u Ll.length
    ∧ (((loopState di d B C).afterStores b Ls).afterLoads u K Ll j).delayIters = Ll.length * K
    ∧ (((loopState di d B C).afterStores b Ls).afterLoads u K Ll j).junk = j
    ∧ (((loopState di d B C).afterStores b Ls).afterLoads u K Ll j).a = some (b.fill Ls) := by
  simp [State.afterLoads, State.afterStores, loopState, State.start, wrap_add_wrap]

theorem loopState_progress (di d : Int) (B : Buffer) (C : Nat) :
    (loopState di d B C).progress < 2 ^ 64 := by
  simp [loopState, State.start]

theorem loopState_nil (di d : Int) (B : Buffer) (C : Nat) (u K : Nat) :
    ((loopState di d B C).afterStores B []).afterLoads u K [] 0 = loopState di d B C := by
  rw [State.afterStores_nil _ B rfl (loopState_progress di d B C)]
  exact State.afterLoads_nil _ u K (loopState_progress di d B C)

namespace Randpd

theorem random_delayLoop_run (delay : Int) (i n : Nat) :
    ∀ (fuel l : Nat) (s : State), l + n = toU64 delay → n < fuel →
      ∃ j, delayLoop delay i fuel l s
          = .ok { s with junk := j, delayIters := s.delayIters + n }
        ∧ (n = 0 → j = s.junk) := by
  induction n with
  | zero =>
    intro fuel l s hl hf
    obtain ⟨f, rfl⟩ := Nat.exists_eq_succ_of_ne_zero (Nat.ne_of_gt hf)
    have : ¬ l < toU64 delay := by omega
    exact ⟨s.junk, by simp [delayLoop, this], fun _ => rfl⟩
  | succ n ih =>
    intro fuel l s hl hf
    obtain ⟨f, rfl⟩ := Nat.exists_eq_succ_of_ne_zero (Nat.ne_of_gt (Nat.lt_of_le_of_lt (Nat.zero_le _) hf))
    have hlt : l < toU64 delay := by omega
    have hK := toU64_lt delay
    have hw : wrap (l + 1) = l + 1 := wrap_of_lt (by omega)
    obtain ⟨j, hj, _⟩ := ih f (l + 1)
      { s with junk := toS64 (wrap (toU64 s.junk + subU64 i l)),
               delayIters := s.delayIters + 1 } (by omega) (by omega)
    refine ⟨j, ?_, fun h => by omega⟩
    simp only [delayLoop, hlt, if_true, hw, hj]
    simp only [Except.ok.injEq, State.mk.injEq, true_and, and_true]
    omega

theorem random_initLoop_run (arraySize : Nat) (hA : arraySize < 2 ^ 64) (n : Nat) :
    ∀ (fuel i : Nat) (s : State) (b : Buffer), s.a = some b → arraySize ≤ b.len →
      s.progress < 2 ^ 64 → i + n = arraySize → n < fuel →
      initLoop arraySize fuel i s = .ok (s.afterStores b (List.range' i n)) := by
  induction n with
  | zero =>
    intro fuel i s b hb _ hp hi hf
    obtain ⟨f, rfl⟩ := Nat.exists_eq_succ_of_ne_zero (Nat.ne_of_gt hf)
    have : ¬ i < arraySize := by omega
    simp only [initLoop, this, if_false]
    exact congrArg _ (State.afterStores_nil s b hb hp).symm
  | succ n ih =>
    intro fuel i s b hb hlen hp hi hf
    obtain ⟨f, rfl⟩ := Nat.exists_eq_succ_of_ne_zero (Nat.ne_of_gt (Nat.lt_of_le_of_lt (Nat.zero_le _) hf))
    have hlt : i < arraySize := by omega
    have hw : wrap (i + 1) = i + 1 := wrap_of_lt (by omega)
    have hstore : store s i 1 = .ok { s with a := some (b.set i 1), stores := s.stores ++ [i] } := by
      simp [store, hb]; omega
    have hstep : setProgress { s with a := some (b.set i 1), stores := s.stores ++ [i] }
        (wrap (s.progress + 1)) = s.afterStores b [i] := by
      simp [setProgress, State.afterStores, Buffer.set_one, logExt_one]
    simp only [initLoop, hlt, if_true, hstore, hw, hstep]
    rw [ih f (i + 1) (s.afterStores b [i]) (b.fill [i]) rfl (by simpa [Buffer.fill] using hlen)
      (wrap_lt _) (by omega) (by omega), State.afterStores_append, List.range'_succ]
    rfl

theorem random_initLoop_fault (arraySize : Nat) (hA : arraySize < 2 ^ 64) (n : Nat) :
    ∀ (fuel i : Nat) (s : State) (b : Buffer), s.a = some b → b.len < arraySize →
      s.progress < 2 ^ 64 → i + n = b.len → n < fuel →
      initLoop arraySize fuel i s
        = .error (Halt.badAccess, s.afterStores b (List.range' i n)) := by
  induction n with
  | zero =>
    intro fuel i s b hb hlen hp hi hf
    obtain ⟨f, rfl⟩ := Nat.exists_eq_succ_of_ne_zero (Nat.ne_of_gt hf)
    have hlt : i < arraySize := by omega
    have hstore : store s i 1 = .error (Halt.badAccess, s) := by
      simp [store, hb]; omega
    simp only [initLoop, hlt, if_true, hstore, List.range'_zero]
    rw [State.afterStores_nil s b hb hp]
  | succ n ih =>
    intro fuel i s b hb hlen hp hi hf
    obtain ⟨f, rfl⟩ := Nat.exists_eq_succ_of_ne_zero (Nat.ne_of_gt (Nat.lt_of_le_of_lt (Nat.zero_le _) hf))
    have hlt : i < arraySize := by omega
    have hw : wrap (i + 1) = i + 1 := wrap_of_lt (by omega)
    have hstore : store s i 1 = .ok { s with a := some (b.set i 1), stores := s.stores ++ [i] } := by
      simp [store, hb]; omega
    have hstep : setProgress { s with a := some (b.set i 1), stores := s.stores ++ [i] }
        (wrap (s.progress + 1)) = s.afterStores b [i] := by
      simp [setProgress, State.afterStores, Buffer.set_one, logExt_one]
    simp only [initLoop, hlt, if_true, hstore, hw, hstep]
    rw [ih f (i + 1) (s.afterStores b [i]) (b.fill [i]) rfl (by simpa [Buffer.fill] using hlen)
      (wrap_lt _) (by simp only [Buffer.fill]; omega) (by omega), State.afterStores_append,
      List.range'_succ]
    rfl

theorem accessLoop_outcome (rand : Nat → Int) (arraySize accesses : Nat) (delay : Int)
    (dfuel u : Nat) (hA : 0 < arraySize) (hN : accesses < 2 ^ 64) (hd : toU64 delay < dfuel)
    (n : Nat) :
    ∀ (fuel i : Nat) (s : State) (b : Buffer), s.a = some b →
      (∀ x < b.len, toU64 (b.cell x) = u) →
      s.progress < 2 ^ 64 → i + n = accesses → n < fuel →
      ∃ j m, m ≤ n ∧ (toU64 delay = 0 → j = s.junk)
        ∧ ((m = n ∧ accessLoop rand arraySize accesses delay dfuel fuel i s
              = .ok (s.afterLoads u (toU64 delay)
                  ((List.range' i m).map (fun k => toU64 (rand k) % arraySize)) j))
          ∨ accessLoop rand arraySize accesses delay dfuel fuel i s
              = .error (Halt.badAccess, s.afterLoads u (toU64 delay)
                  ((List.range' i m).map (fun k => toU64 (rand k) % arraySize)) j))
        ∧ (arraySize ≤ b.len →
            accessLoop rand arraySize accesses delay dfuel fuel i s
              = .ok (s.afterLoads u (toU64 delay)
                  ((List.range' i m).map (fun k => toU64 (rand k) % arraySize)) j)) := by
  induction n with
  | zero =>
    intro fuel i s b _ _ hp hi hf
    obtain ⟨f, rfl⟩ := Nat.exists_eq_succ_of_ne_zero (Nat.ne_of_gt hf)
    have : ¬ i < accesses := by omega
    have e : accessLoop rand arraySize accesses delay dfuel (f + 1) i s
        = .ok (s.afterLoads u (toU64 delay)
            ((List.range' i 0).map (fun k => toU64 (rand k) % arraySize)) s.junk) := by
      simp only [accessLoop, this, if_false, List.range'_zero, List.map_nil]
      exact congrArg _ (State.afterLoads_nil s u _ hp).symm
    exact ⟨s.junk, 0, le_refl _, fun _ => rfl, Or.inl ⟨rfl, e⟩, fun _ => e⟩
  | succ n ih =>
    intro fuel i s b hb hcell hp hi hf
    obtain ⟨f, rfl⟩ := Nat.exists_eq_succ_of_ne_zero (Nat.ne_of_gt (Nat.lt_of_le_of_lt (Nat.zero_le _) hf))
    have hlt : i < accesses := by omega
    have hw : wrap (i + 1) = i + 1 := wrap_of_lt (by omega)
    have hidx : toU64 (rand i) % arraySize < arraySize := Nat.mod_lt _ hA
    have hri : randIndex (rand i) arraySize = some (toU64 (rand i) % arraySize) := by
      simp [randIndex, Nat.ne_of_gt hA]
    by_cases hin : toU64 (rand i) % arraySize < b.len
    · have hload : load s (toU64 (rand i) % arraySize)
          = .ok (b.cell (toU64 (rand i) % arraySize),
              { s with loads := s.loads ++ [toU64 (rand i) % arraySize] }) := by
        simp [load, hb, hin]
      obtain ⟨j1, hj1, hj1z⟩ := random_delayLoop_run delay i (toU64 delay) dfuel 0
        (setProgress { s with loads := s.loads ++ [toU64 (rand i) % arraySize] }
          (wrap (s.progress + toU64 (b.cell (toU64 (rand i) % arraySize))))) (by omega) hd
      have key : delayLoop delay i dfuel 0
          (setProgress { s with loads := s.loads ++ [toU64 (rand i) % arraySize] }
            (wrap (s.progress + toU64 (b.cell (toU64 (rand i) % arraySize)))))
          = .ok (s.afterLoads u (toU64 delay) [toU64 (rand i) % arraySize] j1) := by
        rw [hj1]
        simp [setProgress, State.afterLoads, logExt_one, hcell _ hin]
      obtain ⟨j2, m, hm, hj2z, hcase, hok⟩ := ih f (i + 1)
        (s.afterLoads u (toU64 delay) [toU64 (rand i) % arraySize] j1) b hb hcell
        (wrap_lt _) (by omega) (by omega)
      have hstep : ∀ r : Run State,
          accessLoop rand arraySize accesses delay dfuel f (i + 1)
              (s.afterLoads u (toU64 delay) [toU64 (rand i) % arraySize] j1) = r →
          accessLoop rand arraySize accesses delay dfuel (f + 1) i s = r := by
        intro r hr
        simp only [accessLoop, hlt, if_true, hri, hload, hw, key, hr]
      have hshape : (s.afterLoads u (toU64 delay) [toU64 (rand i) % arraySize] j1).afterLoads u
            (toU64 delay) ((List.range' (i + 1) m).map (fun k => toU64 (rand k) % arraySize)) j2
          = s.afterLoads u (toU64 delay)
            ((List.range' i (m + 1)).map (fun k => toU64 (rand k) % arraySize)) j2 := by
        rw [State.afterLoads_append, List.range'_succ, List.map_cons, List.singleton_append]
      rw [hshape] at hcase hok
      refine ⟨j2, m + 1, by omega, fun h => ?_, ?_, fun h => hstep _ (hok h)⟩
      · rw [hj2z h]
        simpa [State.afterLoads, setProgress] using hj1z h
      · rcases hcase with ⟨hmn, h1⟩ | h1
        · exact Or.inl ⟨by omega, hstep _ h1⟩
        · exact Or.inr (hstep _ h1)
    · have hload : load s (toU64 (rand i) % arraySize) = .error (Halt.badAccess, s) := by
        simp [load, hb, hin]
      have e : accessLoop rand arraySize accesses delay dfuel (f + 1) i s
          = .error (Halt.badAccess, s.afterLoads u (toU64 delay)
              ((List.range' i 0).map (fun k => toU64 (rand k) % arraySize)) s.junk) := by
        simp only [accessLoop, hlt, if_true, hri, hload, List.range'_zero, List.map_nil]
        rw [State.afterLoads_nil s u _ hp]
      exact ⟨s.junk, 0, Nat.zero_le _, fun _ => rfl, Or.inr e, fun h => absurd (by omega) hin⟩

theorem mainBody_unfold (fuel : Nat) (rand : Nat → Int) (arraySize accesses : Nat)
    (delay di : Int) :
    mainBody fuel rand arraySize accesses delay { State.start with doInit := di }
      = match (if di ≠ 0 then initLoop arraySize fuel 0
            (loopState di 0 (mmap (wrap (sizeofLong * arraySize))) (wrap (arraySize + accesses)))
          else .ok
            (loopState di 0 (mmap (wrap (sizeofLong * arraySize))) (wrap (arraySize + accesses))))
        with
        | .error e => .error e
        | .ok s3 => accessLoop rand arraySize accesses delay fuel fuel 0 s3 := rfl

theorem random_shape (fuel : Nat) (rand : Nat → Int) (arraySize accesses : Nat)
    (delay di : Int) (hf : 2 ^ 64 ≤ fuel) (hA0 : 0 < arraySize) (hA : arraySize < 2 ^ 64)
    (hN : accesses < 2 ^ 64) :
    ∃ (j : Int) (ms ml : Nat),
      ms ≤ (if di ≠ 0 then arraySize else 0) ∧ ml ≤ accesses ∧ (toU64 delay = 0 → j = 0)
      ∧ ((ms = (if di ≠ 0 then arraySize else 0) ∧ ml = accesses
          ∧ mainBody fuel rand arraySize accesses delay { State.start with doInit := di }
            = .ok (((loopState di 0 (mmap (wrap (sizeofLong * arraySize)))
                (wrap (arraySize + accesses))).afterStores
                (mmap (wrap (sizeofLong * arraySize))) (List.range' 0 ms)).afterLoads
                (if di ≠ 0 then 1 else 0) (toU64 delay)
                ((List.range' 0 ml).map (fun k => toU64 (rand k) % arraySize)) j))
        ∨ mainBody fuel rand arraySize accesses delay { State.start with doInit := di }
            = .error (Halt.badAccess, ((loopState di 0 (mmap (wrap (sizeofLong * arraySize)))
                (wrap (arraySize + accesses))).afterStores
                (mmap (wrap (sizeofLong * arraySize))) (List.range' 0 ms)).afterLoads
                (if di ≠ 0 then 1 else 0) (toU64 delay)
                ((List.range' 0 ml).map (fun k => toU64 (rand k) % arraySize)) j))
      ∧ (arraySize < 2 ^ 61 →
          mainBody fuel rand arraySize accesses delay { State.start with doInit := di }
            = .ok (((loopState di 0 (mmap (wrap (sizeofLong * arraySize)))
                (wrap (arraySize + accesses))).afterStores
                (mmap (wrap (sizeofLong * arraySize))) (List.range' 0 ms)).afterLoads
                (if di ≠ 0 then 1 else 0) (toU64 delay)
                ((List.range' 0 ml).map (fun k => toU64 (rand k) % arraySize)) j)) := by
  have hK := toU64_lt delay
  have hp0 := loopState_progress di 0 (mmap (wrap (sizeofLong * arraySize)))
    (wrap (arraySize + accesses))
  rw [mainBody_unfold]
  by_cases hi : di ≠ 0
  · simp only [hi, if_true, ne_eq, not_false_eq_true]
    by_cases h61 : arraySize < 2 ^ 61
    · have hlen : arraySize ≤ (mmap (wrap (sizeofLong * arraySize))).len :=
        le_of_eq (len_mmap_of_lt h61).symm
      have h1 := random_initLoop_run arraySize hA arraySize fuel 0
        (loopState di 0 (mmap (wrap (sizeofLong * arraySize))) (wrap (arraySize + accesses)))
        (mmap (wrap (sizeofLong * arraySize))) rfl hlen hp0 (by omega) (by omega)
      obtain ⟨j, m, hm, hjz, hcase, hok⟩ := accessLoop_outcome rand arraySize accesses delay
        fuel 1 hA0 hN (by omega) accesses fuel 0
        ((loopState di 0 (mmap (wrap (sizeofLong * arraySize)))
          (wrap (arraySize + accesses))).afterStores
          (mmap (wrap (sizeofLong * arraySize))) (List.range' 0 arraySize))
        ((mmap (wrap (sizeofLong * arraySize))).fill (List.range' 0 arraySize)) rfl
        (fun x hx => by
          have hx1 : x < arraySize := by
            have h2 : x < (mmap (wrap (sizeofLong * arraySize))).len := hx
            have h3 := len_mmap_of_lt h61
            omega
          simp [Buffer.fill, hx1, toU64_one])
        (wrap_lt _) (by omega) (by omega)
      have hres := hok hlen
      have hmn : m = accesses := by
        rcases hcase with ⟨h, _⟩ | h
        · exact h
        · rw [hres] at h; cases h
      rw [h1]
      exact ⟨j, arraySize, m, le_refl _, hm,
        fun h => by simpa [State.afterStores, loopState, State.start] using hjz h,
        Or.inl ⟨rfl, hmn, hres⟩, fun _ => hres⟩
    · have hlen := len_mmap_of_ge (Nat.le_of_not_lt h61)
      have h1 := random_initLoop_fault arraySize hA (mmap (wrap (sizeofLong * arraySize))).len
        fuel 0
        (loopState di 0 (mmap (wrap (sizeofLong * arraySize))) (wrap (arraySize + accesses)))
        (mmap (wrap (sizeofLong * arraySize))) rfl (by omega) hp0 (by omega) (by omega)
      rw [h1]
      refine ⟨0, (mmap (wrap (sizeofLong * arraySize))).len, 0, by omega, Nat.zero_le _,
        fun _ => rfl, Or.inr ?_, fun h => absurd h h61⟩
      have e := State.afterLoads_nil ((loopState di 0 (mmap (wrap (sizeofLong * arraySize)))
          (wrap (arraySize + accesses))).afterStores (mmap (wrap (sizeofLong * arraySize)))
          (List.range' 0 (mmap (wrap (sizeofLong * arraySize))).len)) 1 (toU64 delay) (wrap_lt _)
      simp only [List.range'_zero, List.map_nil]
      exact congrArg (fun s => Except.error (Halt.badAccess, s)) e.symm
  · simp only [hi, if_false]
    obtain ⟨j, m, hm, hjz, hcase, hok⟩ := accessLoop_outcome rand arraySize accesses delay
      fuel 0 hA0 hN (by omega) accesses fuel 0
      (loopState di 0 (mmap (wrap (sizeofLong * arraySize))) (wrap (arraySize + accesses)))
      (mmap (wrap (sizeofLong * arraySize))) rfl
      (fun x _ => by simp [mmap, toU64_zero]) hp0 (by omega) (by omega)
    have hnil := State.afterStores_nil
      (loopState di 0 (mmap (wrap (sizeofLong * arraySize))) (wrap (arraySize + accesses)))
      (mmap (wrap (sizeofLong * arraySize))) rfl hp0
    refine ⟨j, 0, m, le_refl _, hm, fun h => hjz h, ?_, fun h => ?_⟩
    · simp only [List.range'_zero, hnil]
      rcases hcase with ⟨h, h1⟩ | h1
      · exact Or.inl ⟨trivial, h, h1⟩
      · exact Or.inr h1
    · simp only [List.range'_zero, hnil]
      exact hok (le_of_eq (len_mmap_of_lt h).symm)

theorem random_outcome (fuel : Nat) (rand : Nat → Int) (arraySize accesses : Nat)
    (delay di : Int) (hf : 2 ^ 64 ≤ fuel) (hA0 : 0 < arraySize) (hA : arraySize < 2 ^ 64)
    (hN : accesses < 2 ^ 64) :
    ∃ (sf : State) (ms ml : Nat),
      ((ms = (if di ≠ 0 then arraySize else 0) ∧ ml = accesses
          ∧ mainBody fuel rand arraySize accesses delay { State.start with doInit := di }
            = .ok sf)
        ∨ mainBody fuel rand arraySize accesses delay { State.start with doInit := di }
            = .error (Halt.badAccess, sf))
      ∧ (arraySize < 2 ^ 61 →
          mainBody fuel rand arraySize accesses delay { State.start with doInit := di }
            = .ok sf)
      ∧ ms ≤ (if di ≠ 0 then arraySize else 0) ∧ ml ≤ accesses
      ∧ sf.completion = wrap (arraySize + accesses)
      ∧ sf.stores = List.range' 0 ms
      ∧ sf.loads = (List.range' 0 ml).map (fun k => toU64 (rand k) % arraySize)
      ∧ sf.progress = wrap (ms + ml * (if di ≠ 0 then 1 else 0))
      ∧ sf.progressLog = logExt 0 1 ms ++ logExt (wrap ms) (if di ≠ 0 then 1 else 0) ml
      ∧ sf.delayIters = ml * toU64 delay
      ∧ (toU64 delay = 0 → sf.junk = 0)
      ∧ ∃ b, sf.a = some b ∧ b.len = arraySize % 2 ^ 61 ∧ ∀ x ∈ sf.stores, b.cell x = 1 := by
  obtain ⟨j, ms, ml, hms, hml, hjz, hcase, hok⟩ :=
    random_shape fuel rand arraySize accesses delay di hf hA0 hA hN
  obtain ⟨f1, f2, f3, f4, f5, f6, f7, f8⟩ := shape_fields di 0
    (mmap (wrap (sizeofLong * arraySize))) (mmap (wrap (sizeofLong * arraySize)))
    (wrap (arraySize + accesses)) (List.range' 0 ms)
    ((List.range' 0 ml).map (fun k => toU64 (rand k) % arraySize))
    (if di ≠ 0 then 1 else 0) (toU64 delay) j
  simp only [List.length_range', List.length_map] at f4 f5 f6
  refine ⟨_, ms, ml, hcase, hok, hms, hml, f1, f2, f3, f4, f5, f6, fun h => by rw [f7, hjz h],
    _, f8, len_mmap_mod arraySize, ?_⟩
  intro x hx
  rw [f2] at hx
  simp only [Buffer.fill, hx, if_true]

end Randpd

/-! ## Loops of `rpd.c` -/

theorem strideIdx_succ (A st c : Nat) :
    strideIdx A st (c + 1) = (A - st) :: strideIdx (A - st) st c := by
  simp only [strideIdx, List.range_succ_eq_map, List.map_cons, List.map_map, zero_add, one_mul]
  congr 1
  apply List.map_congr_left
  intro k _
  simp only [Function.comp_apply, Nat.succ_eq_add_one]
  rw [Nat.sub_sub]
  congr 1
  ring

theorem length_strideIdx (A st c : Nat) : (strideIdx A st c).length = c := by
  simp [strideIdx]

theorem length_repeatList (n : Nat) (L : List Nat) : (repeatList n L).length = n * L.length := by
  induction n with
  | zero => simp [repeatList]
  | succ n ih => simp [repeatList, ih, Nat.succ_mul, Nat.add_comm]

theorem mem_repeatList {n : Nat} {L : List Nat} {x : Nat} (h : x ∈ repeatList n L) : x ∈ L := by
  induction n with
  | zero => simp [repeatList] at h
  | succ n ih =>
    rcases List.mem_append.1 h with h1 | h1
    · exact h1
    · exact ih h1

theorem subU64_of_le {x y : Nat} (hx : x < 2 ^ 64) (hy : y ≤ x) : subU64 x y = x - y := by
  unfold subU64
  rw [wrap_of_lt hx, wrap_of_lt (Nat.lt_of_le_of_lt hy hx)]
  unfold wrap
  have : x + (2 ^ 64 - y) = (x - y) + 2 ^ 64 := by omega
  rw [this, Nat.add_mod_right]
  exact Nat.mod_eq_of_lt (by omega)

theorem wrap_add_wrap_right (a b : Nat) : wrap (a + wrap b) = wrap (a + b) := by
  simp [wrap, Nat.add_mod]

theorem length_passIdx {A st : Nat} (h : A < 2 ^ 63 + st) : (passIdx A st).length = A / st := by
  rw [passIdx, if_pos h, length_strideIdx]

namespace Rpd

theorem firstIndex_eq {arraySize st : Nat} (hst : st < 2 ^ 64) (hle : st ≤ arraySize)
    (hA : arraySize < 2 ^ 63 + st) (hA2 : arraySize < 2 ^ 64) :
    firstIndex arraySize (st : Int) = (arraySize : Int) - st := by
  unfold firstIndex
  rw [toU64_natCast hst, subU64_of_le hA2 hle, toS64_of_lt (by omega)]
  omega

theorem firstIndex_neg {arraySize st : Nat} (hst : st < 2 ^ 64) (hle : st ≤ arraySize)
    (hA : 2 ^ 63 + st ≤ arraySize) (hA2 : arraySize < 2 ^ 64) :
    firstIndex arraySize (st : Int) < 0 := by
  unfold firstIndex
  rw [toU64_natCast hst, subU64_of_le hA2 hle, toS64_of_ge (by omega) (by omega)]
  omega

theorem strided_initLoop_run (st : Nat) (hst : 0 < st) (hst2 : st ≤ 2 ^ 63) (c : Nat) :
    ∀ (fuel A : Nat) (s : State) (b : Buffer), s.a = some b → A ≤ b.len →
      A < 2 ^ 63 + st → s.progress < 2 ^ 64 → A / st = c → c < fuel →
      initLoop (st : Int) fuel ((A : Int) - st) s = .ok (s.afterStores b (strideIdx A st c)) := by
  induction c with
  | zero =>
    intro fuel A s b hb _ _ hp hc hf
    obtain ⟨f, rfl⟩ := Nat.exists_eq_succ_of_ne_zero (Nat.ne_of_gt hf)
    have hlt : A < st := (Nat.div_eq_zero_iff hst).1 hc
    have : ¬ (0 : Int) ≤ (A : Int) - st := by omega
    simp only [initLoop, this, if_false]
    exact congrArg _ (State.afterStores_nil s b hb hp).symm
  | succ c ih =>
    intro fuel A s b hb hlen hA hp hc hf
    obtain ⟨f, rfl⟩ := Nat.exists_eq_succ_of_ne_zero (Nat.ne_of_gt (Nat.lt_of_le_of_lt (Nat.zero_le _) hf))
    have hge : st ≤ A := by
      by_contra hlt
      rw [Nat.div_eq_of_lt (by omega)] at hc
      omega
    have hc1 : (A - st) / st = c := by
      have := Nat.div_eq_sub_div hst hge
      omega
    have h0 : (0 : Int) ≤ (A : Int) - st := by omega
    have hidx : ((A : Int) - st).toNat = A - st := by omega
    have hstore : store s (A - st) 1
        = .ok { s with a := some (b.set (A - st) 1), stores := s.stores ++ [A - st] } := by
      simp [store, hb]; omega
    have hstep : setProgress { s with a := some (b.set (A - st) 1), stores := s.stores ++ [A - st] }
        (wrap (s.progress + 1)) = s.afterStores b [A - st] := by
      simp [setProgress, State.afterStores, Buffer.set_one, logExt_one]
    have hnext : wrapS ((A : Int) - st - st) = ((A - st : Nat) : Int) - st := by
      rw [wrapS_of_range (by omega) (by omega)]; omega
    simp only [initLoop, h0, if_true, hidx, hstore, hstep, hnext]
    rw [ih f (A - st) (s.afterStores b [A - st]) (b.fill [A - st]) rfl
      (by simp only [Buffer.fill]; omega) (by omega) (wrap_lt _) hc1 (by omega),
      State.afterStores_append, strideIdx_succ]
    rfl

theorem strided_delayLoop_run (delay i j k : Int) (hd : delay < 2 ^ 63) (n : Nat) :
    ∀ (fuel : Nat) (l : Int) (s : State), 0 ≤ l → l + n = max delay 0 → n < fuel →
      ∃ jk, delayLoop delay i j k fuel l s
          = .ok { s with junk := jk, delayIters := s.delayIters + n }
        ∧ (n = 0 → jk = s.junk) := by
  induction n with
  | zero =>
    intro fuel l s hl0 hl hf
    obtain ⟨f, rfl⟩ := Nat.exists_eq_succ_of_ne_zero (Nat.ne_of_gt hf)
    have : ¬ l < delay := by omega
    exact ⟨s.junk, by simp [delayLoop, this], fun _ => rfl⟩
  | succ n ih =>
    intro fuel l s hl0 hl hf
    obtain ⟨f, rfl⟩ := Nat.exists_eq_succ_of_ne_zero (Nat.ne_of_gt (Nat.lt_of_le_of_lt (Nat.zero_le _) hf))
    have hlt : l < delay := by omega
    have hw : wrapS (l + 1) = l + 1 := wrapS_of_range (by omega) (by omega)
    obtain ⟨jk, hjk, _⟩ := ih f (l + 1)
      { s with junk := wrapS (s.junk + (i - j + k - l)),
               delayIters := s.delayIters + 1 } (by omega) (by omega) (by omega)
    refine ⟨jk, ?_, fun h => by omega⟩
    simp only [delayLoop, hlt, if_true, hw, hjk]
    simp only [Except.ok.injEq, State.mk.injEq, true_and, and_true]
    omega

theorem passLoop_run (st : Nat) (delay j k : Int) (dfuel u : Nat) (hst : 0 < st)
    (hst2 : st ≤ 2 ^ 63) (hd : delay < 2 ^ 63) (hdf : delay.toNat < dfuel) (c : Nat) :
    ∀ (fuel A : Nat) (s : State) (b : Buffer), s.a = some b → A ≤ b.len →
      (∀ x ∈ strideIdx A st c, toU64 (b.cell x) = u) →
      A < 2 ^ 63 + st → s.progress < 2 ^ 64 → A / st = c → c < fuel →
      ∃ jk, passLoop (st : Int) delay j k dfuel fuel ((A : Int) - st) s
          = .ok (s.afterLoads u delay.toNat (strideIdx A st c) jk)
        ∧ (delay.toNat = 0 → jk = s.junk) := by
  induction c with
  | zero =>
    intro fuel A s b _ _ _ _ hp hc hf
    obtain ⟨f, rfl⟩ := Nat.exists_eq_succ_of_ne_zero (Nat.ne_of_gt hf)
    have hlt : A < st := (Nat.div_eq_zero_iff hst).1 hc
    have : ¬ (0 : Int) ≤ (A : Int) - st := by omega
    refine ⟨s.junk, ?_, fun _ => rfl⟩
    simp only [passLoop, this, if_false]
    exact congrArg _ (State.afterLoads_nil s u _ hp).symm
  | succ c ih =>
    intro fuel A s b hb hlen hcell hA hp hc hf
    obtain ⟨f, rfl⟩ := Nat.exists_eq_succ_of_ne_zero (Nat.ne_of_gt (Nat.lt_of_le_of_lt (Nat.zero_le _) hf))
    have hge : st ≤ A := by
      by_contra hlt
      rw [Nat.div_eq_of_lt (by omega)] at hc
      omega
    have hc1 : (A - st) / st = c := by
      have := Nat.div_eq_sub_div hst hge
      omega
    have h0 : (0 : Int) ≤ (A : Int) - st := by omega
    have hidx : ((A : Int) - st).toNat = A - st := by omega
    rw [strideIdx_succ] at hcell
    have hload : load s (A - st)
        = .ok (b.cell (A - st), { s with loads := s.loads ++ [A - st] }) := by
      simp [load, hb]; omega
    obtain ⟨j1, hj1, hj1z⟩ := strided_delayLoop_run delay ((A : Int) - st) j k hd delay.toNat dfuel 0
      (setProgress { s with loads := s.loads ++ [A - st] }
        (wrap (s.progress + toU64 (b.cell (A - st))))) (le_refl _) (by omega) hdf
    have key : delayLoop delay ((A : Int) - st) j k dfuel 0
        (setProgress { s with loads := s.loads ++ [A - st] }
          (wrap (s.progress + toU64 (b.cell (A - st)))))
        = .ok (s.afterLoads u delay.toNat [A - st] j1) := by
      rw [hj1]
      simp [setProgress, State.afterLoads, logExt_one, hcell _ (List.mem_cons_self _ _)]
    have hnext : wrapS ((A : Int) - st - st) = ((A - st : Nat) : Int) - st := by
      rw [wrapS_of_range (by omega) (by omega)]; omega
    obtain ⟨j2, hj2, hj2z⟩ := ih f (A - st) (s.afterLoads u delay.toNat [A - st] j1) b hb
      (by omega) (fun x hx => hcell x (List.mem_cons_of_mem _ hx)) (by omega) (wrap_lt _) hc1
      (by omega)
    refine ⟨j2, ?_, fun h => ?_⟩
    · simp only [passLoop, h0, if_true, hidx, hload, key, hnext, hj2, State.afterLoads_append,
        strideIdx_succ, List.singleton_append]
    · rw [hj2z h]
      simpa [State.afterLoads, setProgress] using hj1z h

theorem outerLoop_run (arraySize : Nat) (stride delay outloop k : Int) (ifuel u K : Nat)
    (L : List Nat) (b : Buffer) (hol : outloop < 2 ^ 63)
    (Hpass : ∀ (j : Int) (s : State), s.a = some b → s.progress < 2 ^ 64 →
      ∃ jk, passLoop stride delay j k ifuel ifuel (firstIndex arraySize stride) s
          = .ok (s.afterLoads u K L jk) ∧ (K = 0 → jk = s.junk)) (n : Nat) :
    ∀ (fuel : Nat) (j : Int) (s : State), s.a = some b → s.progress < 2 ^ 64 → 0 ≤ j →
      j + n = max outloop 0 → n < fuel →
      ∃ jk, outerLoop arraySize stride delay outloop k ifuel fuel j s
          = .ok (s.afterLoads u K (repeatList n L) jk) ∧ (K = 0 → jk = s.junk) := by
  induction n with
  | zero =>
    intro fuel j s _ hp hj0 hj hf
    obtain ⟨f, rfl⟩ := Nat.exists_eq_succ_of_ne_zero (Nat.ne_of_gt hf)
    have : ¬ j < outloop := by omega
    refine ⟨s.junk, ?_, fun _ => rfl⟩
    simp only [outerLoop, this, if_false, repeatList]
    exact congrArg _ (State.afterLoads_nil s u _ hp).symm
  | succ n ih =>
    intro fuel j s hb hp hj0 hj hf
    obtain ⟨f, rfl⟩ := Nat.exists_eq_succ_of_ne_zero (Nat.ne_of_gt (Nat.lt_of_le_of_lt (Nat.zero_le _) hf))
    have hlt : j < outloop := by omega
    have hw : wrapS (j + 1) = j + 1 := wrapS_of_range (by omega) (by omega)
    obtain ⟨j1, hj1, hj1z⟩ := Hpass j s hb hp
    obtain ⟨j2, hj2, hj2z⟩ := ih f (j + 1) (s.afterLoads u K L j1) hb (wrap_lt _) (by omega)
      (by omega) (by omega)
    refine ⟨j2, ?_, fun h => ?_⟩
    · simp only [outerLoop, hlt, if_true, hj1, hw, hj2, State.afterLoads_append, repeatList]
    · rw [hj2z h]
      simpa [State.afterLoads] using hj1z h

theorem repLoop_run (arraySize : Nat) (stride reps delay outloop : Int) (ifuel u K : Nat)
    (M : List Nat) (b : Buffer) (hr : reps < 2 ^ 63)
    (Houter : ∀ (k : Int) (s : State), s.a = some b → s.progress < 2 ^ 64 →
      ∃ jk, outerLoop arraySize stride delay outloop k ifuel ifuel 0 s
          = .ok (s.afterLoads u K M jk) ∧ (K = 0 → jk = s.junk)) (n : Nat) :
    ∀ (fuel : Nat) (k : Int) (s : State), s.a = some b → s.progress < 2 ^ 64 → 0 ≤ k →
      k + n = max reps 0 → n < fuel →
      ∃ jk, repLoop arraySize stride reps delay outloop ifuel fuel k s
          = .ok (s.afterLoads u K (repeatList n M) jk) ∧ (K = 0 → jk = s.junk) := by
  induction n with
  | zero =>
    intro fuel k s _ hp hk0 hk hf
    obtain ⟨f, rfl⟩ := Nat.exists_eq_succ_of_ne_zero (Nat.ne_of_gt hf)
    have : ¬ k < reps := by omega
    refine ⟨s.junk, ?_, fun _ => rfl⟩
    simp only [repLoop, this, if_false, repeatList]
    exact congrArg _ (State.afterLoads_nil s u _ hp).symm
  | succ n ih =>
    intro fuel k s hb hp hk0 hk hf
    obtain ⟨f, rfl⟩ := Nat.exists_eq_succ_of_ne_zero (Nat.ne_of_gt (Nat.lt_of_le_of_lt (Nat.zero_le _) hf))
    have hlt : k < reps := by omega
    have hw : wrapS (k + 1) = k + 1 := wrapS_of_range (by omega) (by omega)
    obtain ⟨j1, hj1, hj1z⟩ := Houter k s hb hp
    obtain ⟨j2, hj2, hj2z⟩ := ih f (k + 1) (s.afterLoads u K M j1) hb (wrap_lt _) (by omega)
      (by omega) (by omega)
    refine ⟨j2, ?_, fun h => ?_⟩
    · simp only [repLoop, hlt, if_true, hj1, hw, hj2, State.afterLoads_append, repeatList]
    · rw [hj2z h]
      simpa [State.afterLoads] using hj1z h

theorem initLoop_any (fuel A st : Nat) (s : State) (b : Buffer) (hf : 2 ^ 64 ≤ fuel)
    (hst : 0 < st) (hst2 : st < 2 ^ 31) (hle : st ≤ A) (hA : A < 2 ^ 64)
    (hb : s.a = some b) (hlen : A < 2 ^ 63 + st → A ≤ b.len) (hp : s.progress < 2 ^ 64) :
    initLoop (st : Int) fuel (firstIndex A (st : Int)) s
      = .ok (s.afterStores b (passIdx A st)) := by
  by_cases h : A < 2 ^ 63 + st
  · rw [firstIndex_eq (by omega) hle h hA, passIdx, if_pos h]
    have hc : A / st ≤ A := Nat.div_le_self _ _
    exact strided_initLoop_run st hst (by omega) (A / st) fuel A s b hb (hlen h) h hp rfl
      (by omega)
  · have hneg := @firstIndex_neg A st (by omega) hle (by omega) hA
    obtain ⟨f, rfl⟩ := Nat.exists_eq_succ_of_ne_zero (show fuel ≠ 0 by omega)
    have : ¬ (0 : Int) ≤ firstIndex A (st : Int) := by omega
    rw [passIdx, if_neg h]
    simp only [initLoop, this, if_false]
    exact congrArg _ (State.afterStores_nil s b hb hp).symm

theorem passLoop_any (fuel A st u : Nat) (delay j k : Int) (s : State) (b : Buffer)
    (hf : 2 ^ 64 ≤ fuel) (hst : 0 < st) (hst2 : st < 2 ^ 31) (hle : st ≤ A) (hA : A < 2 ^ 64)
    (hd : IsInt delay) (hb : s.a = some b) (hlen : A < 2 ^ 63 + st → A ≤ b.len)
    (hcell : ∀ x ∈ passIdx A st, toU64 (b.cell x) = u) (hp : s.progress < 2 ^ 64) :
    ∃ jk, passLoop (st : Int) delay j k fuel fuel (firstIndex A (st : Int)) s
        = .ok (s.afterLoads u delay.toNat (passIdx A st) jk)
      ∧ (delay.toNat = 0 → jk = s.junk) := by
  have hd2 : delay < 2 ^ 31 := hd.2
  by_cases h : A < 2 ^ 63 + st
  · rw [firstIndex_eq (by omega) hle h hA]
    rw [passIdx, if_pos h] at hcell ⊢
    have hc : A / st ≤ A := Nat.div_le_self _ _
    exact passLoop_run st delay j k fuel u hst (by omega) (by omega) (by omega) (A / st) fuel A s b
      hb (hlen h) hcell h hp rfl (by omega)
  · have hneg := @firstIndex_neg A st (by omega) hle (by omega) hA
    obtain ⟨f, rfl⟩ := Nat.exists_eq_succ_of_ne_zero (show fuel ≠ 0 by omega)
    have : ¬ (0 : Int) ≤ firstIndex A (st : Int) := by omega
    rw [passIdx, if_neg h]
    refine ⟨s.junk, ?_, fun _ => rfl⟩
    simp only [passLoop, this, if_false]
    exact congrArg _ (State.afterLoads_nil s u _ hp).symm

theorem outloopOf_cases (d : Int) (st : Nat) :
    outloopOf d (st : Int) = ((if d ≠ 0 then st else 1 : Nat) : Int) := by
  unfold outloopOf
  split <;> simp

theorem accessPhase (fuel A st u : Nat) (reps delay d : Int) (s : State) (b : Buffer)
    (hf : 2 ^ 64 ≤ fuel) (hst : 0 < st) (hst2 : st < 2 ^ 31) (hle : st ≤ A) (hA : A < 2 ^ 64)
    (hr : IsInt reps) (hd : IsInt delay) (hb : s.a = some b)
    (hlen : A < 2 ^ 63 + st → A ≤ b.len)
    (hcell : ∀ x ∈ passIdx A st, toU64 (b.cell x) = u) (hp : s.progress < 2 ^ 64) :
    ∃ jk, repLoop A (st : Int) reps delay (outloopOf d (st : Int)) fuel fuel 0 s
        = .ok (s.afterLoads u delay.toNat
            (repeatList reps.toNat (repeatList (if d ≠ 0 then st else 1) (passIdx A st))) jk)
      ∧ (delay.toNat = 0 → jk = s.junk) := by
  have hr2 : reps < 2 ^ 31 := hr.2
  have hJ : (if d ≠ 0 then st else 1 : Nat) < 2 ^ 31 := by split <;> omega
  have Hpass : ∀ (k j : Int) (s1 : State), s1.a = some b → s1.progress < 2 ^ 64 →
      ∃ jk, passLoop (st : Int) delay j k fuel fuel (firstIndex A (st : Int)) s1
          = .ok (s1.afterLoads u delay.toNat (passIdx A st) jk)
        ∧ (delay.toNat = 0 → jk = s1.junk) :=
    fun k j s1 h1 h2 => passLoop_any fuel A st u delay j k s1 b hf hst hst2 hle hA hd h1 hlen hcell h2
  have Houter : ∀ (k : Int) (s1 : State), s1.a = some b → s1.progress < 2 ^ 64 →
      ∃ jk, outerLoop A (st : Int) delay (outloopOf d (st : Int)) k fuel fuel 0 s1
          = .ok (s1.afterLoads u delay.toNat
              (repeatList (if d ≠ 0 then st else 1) (passIdx A st)) jk)
        ∧ (delay.toNat = 0 → jk = s1.junk) := by
    intro k s1 h1 h2
    rw [outloopOf_cases]
    exact outerLoop_run A (st : Int) delay _ k fuel u delay.toNat (passIdx A st) b (by omega)
      (Hpass k) _ fuel 0 s1 h1 h2 (le_refl _) (by omega) (by omega)
  exact repLoop_run A (st : Int) reps delay _ fuel u delay.toNat _ b (by omega) Houter
    reps.toNat fuel 0 s hb hp (le_refl _) (by omega) (by omega)

theorem workingSetSize_some (A : Nat) (stride : Int) (h : toU64 stride ≠ 0) :
    ∃ w, workingSetSize A stride = some w := by
  unfold workingSetSize
  by_cases h1 : wrap (toU64 stride * sizeofLong) > 64
  · exact ⟨_, by rw [if_pos h1, if_neg h]⟩
  · exact ⟨_, by rw [if_neg h1]⟩

theorem completionOf_some (A : Nat) (stride reps outloop : Int) (h : toU64 stride ≠ 0) :
    completionOf A stride reps outloop = some (wrap (A / toU64 stride
      + wrap (toU64 (wrapS (reps * outloop)) * (A / toU64 stride)))) := by
  unfold completionOf
  rw [if_neg h]

theorem strided_mainBody_unfold (fuel A st : Nat) (reps delay di d : Int) (hst : 0 < st)
    (hst2 : st < 2 ^ 31) :
    mainBody fuel A (st : Int) reps delay { State.start with doInit := di, doOuterLoop := d }
      = match (if di ≠ 0 then initLoop (st : Int) fuel (firstIndex A (st : Int))
            (loopState di d (mmap (wrap (sizeofLong * A)))
              (wrap (A / st + wrap (toU64 (wrapS (reps * outloopOf d (st : Int))) * (A / st)))))
          else .ok
            (loopState di d (mmap (wrap (sizeofLong * A)))
              (wrap (A / st + wrap (toU64 (wrapS (reps * outloopOf d (st : Int))) * (A / st))))))
        with
        | .error e => .error e
        | .ok s3 => repLoop A (st : Int) reps delay (outloopOf d (st : Int)) fuel fuel 0 s3 := by
  have hu : toU64 (st : Int) = st := toU64_natCast (by omega)
  have hne : toU64 (st : Int) ≠ 0 := by omega
  obtain ⟨w, hw⟩ := workingSetSize_some A (st : Int) hne
  have hc := completionOf_some A (st : Int) reps (outloopOf d (st : Int)) hne
  rw [hu] at hc
  simp only [mainBody, hw, hc]
  rfl

theorem strided_fault (fuel A st : Nat) (reps delay di d : Int) (hf : 2 ^ 64 ≤ fuel)
    (hst : 0 < st) (hst2 : st < 2 ^ 31) (hle : st ≤ A) (hA : A < 2 ^ 64)
    (h61 : 2 ^ 61 ≤ A) (h63 : A < 2 ^ 63 + st) :
    ((di ≠ 0 ∨ 0 < reps) →
      mainBody fuel A (st : Int) reps delay { State.start with doInit := di, doOuterLoop := d }
        = .error (Halt.badAccess, loopState di d (mmap (wrap (sizeofLong * A)))
            (wrap (A / st + wrap (toU64 (wrapS (reps * outloopOf d (st : Int))) * (A / st))))))
    ∧ (di = 0 → reps ≤ 0 →
      mainBody fuel A (st : Int) reps delay { State.start with doInit := di, doOuterLoop := d }
        = .ok (loopState di d (mmap (wrap (sizeofLong * A)))
            (wrap (A / st + wrap (toU64 (wrapS (reps * outloopOf d (st : Int))) * (A / st)))))) := by
  obtain ⟨f, rfl⟩ := Nat.exists_eq_succ_of_ne_zero (show fuel ≠ 0 by omega)
  have hfi := firstIndex_eq (by omega : st < 2 ^ 64) hle h63 hA
  have hlen := len_mmap_of_ge h61
  have h0 : (0 : Int) ≤ (A : Int) - st := by omega
  have hidx : ((A : Int) - st).toNat = A - st := by omega
  have hstore : store (loopState di d (mmap (wrap (sizeofLong * A)))
      (wrap (A / st + wrap (toU64 (wrapS (reps * outloopOf d (st : Int))) * (A / st)))))
      (A - st) 1
      = .error (Halt.badAccess, loopState di d (mmap (wrap (sizeofLong * A)))
        (wrap (A / st + wrap (toU64 (wrapS (reps * outloopOf d (st : Int))) * (A / st))))) := by
    simp [store, loopState]; omega
  have hload : load (loopState di d (mmap (wrap (sizeofLong * A)))
      (wrap (A / st + wrap (toU64 (wrapS (reps * outloopOf d (st : Int))) * (A / st)))))
      (A - st)
      = .error (Halt.badAccess, loopState di d (mmap (wrap (sizeofLong * A)))
        (wrap (A / st + wrap (toU64 (wrapS (reps * outloopOf d (st : Int))) * (A / st))))) := by
    simp [load, loopState]; omega
  rw [strided_mainBody_unfold (f + 1) A st reps delay di d hst hst2, hfi]
  constructor
  · intro h
    by_cases hi : di ≠ 0
    · simp only [hi, if_true, ne_eq, not_false_eq_true, initLoop, h0, hidx, hstore]
    · have hr : 0 < reps := by
        rcases h with h | h
        · exact absurd h hi
        · exact h
      have hol : (0 : Int) < outloopOf d (st : Int) := by
        rw [outloopOf_cases]; split <;> omega
      simp only [hi, if_false, repLoop, hr, if_true, outerLoop, hol, hfi, passLoop, h0, hidx,
        hload]
  · intro hi hr
    have hr1 : ¬ (0 : Int) < reps := by omega
    simp only [hi, ne_eq, not_true_eq_false, if_false, repLoop, hr1]

theorem strided_shape (fuel A st : Nat) (reps delay di d : Int) (hf : 2 ^ 64 ≤ fuel)
    (hst : 0 < st) (hst2 : st < 2 ^ 31) (hle : st ≤ A) (hA : A < 2 ^ 64)
    (hr : IsInt reps) (hd : IsInt delay) :
    ∃ (j : Int) (Ls Ll : List Nat), (delay.toNat = 0 → j = 0)
      ∧ ((Ls = (if di ≠ 0 then passIdx A st else [])
          ∧ Ll = repeatList reps.toNat (repeatList (if d ≠ 0 then st else 1) (passIdx A st))
          ∧ mainBody fuel A (st : Int) reps delay
              { State.start with doInit := di, doOuterLoop := d }
            = .ok (((loopState di d (mmap (wrap (sizeofLong * A)))
                (wrap (A / st + wrap (toU64 (wrapS (reps * outloopOf d (st : Int)))
                  * (A / st))))).afterStores (mmap (wrap (sizeofLong * A))) Ls).afterLoads
                (if di ≠ 0 then 1 else 0) delay.toNat Ll j))
        ∨ (Ls = [] ∧ Ll = [] ∧ 2 ^ 61 ≤ A ∧ A < 2 ^ 63 + st
          ∧ mainBody fuel A (st : Int) reps delay
              { State.start with doInit := di, doOuterLoop := d }
            = .error (Halt.badAccess, ((loopState di d (mmap (wrap (sizeofLong * A)))
                (wrap (A / st + wrap (toU64 (wrapS (reps * outloopOf d (st : Int)))
                  * (A / st))))).afterStores (mmap (wrap (sizeofLong * A))) Ls).afterLoads
                (if di ≠ 0 then 1 else 0) delay.toNat Ll j))) := by
  have hp0 := loopState_progress di d (mmap (wrap (sizeofLong * A)))
    (wrap (A / st + wrap (toU64 (wrapS (reps * outloopOf d (st : Int))) * (A / st))))
  by_cases hmap : A < 2 ^ 63 + st → A < 2 ^ 61
  · have hlen : A < 2 ^ 63 + st → A ≤ (mmap (wrap (sizeofLong * A))).len :=
      fun h => le_of_eq (len_mmap_of_lt (hmap h)).symm
    rw [strided_mainBody_unfold fuel A st reps delay di d hst hst2]
    by_cases hi : di ≠ 0
    · simp only [hi, if_true, ne_eq, not_false_eq_true]
      have h1 := initLoop_any fuel A st
        (loopState di d (mmap (wrap (sizeofLong * A)))
          (wrap (A / st + wrap (toU64 (wrapS (reps * outloopOf d (st : Int))) * (A / st)))))
        (mmap (wrap (sizeofLong * A))) hf hst hst2 hle hA rfl hlen hp0
      obtain ⟨j, hj, hjz⟩ := accessPhase fuel A st 1 reps delay d
        ((loopState di d (mmap (wrap (sizeofLong * A)))
          (wrap (A / st + wrap (toU64 (wrapS (reps * outloopOf d (st : Int)))
            * (A / st))))).afterStores (mmap (wrap (sizeofLong * A))) (passIdx A st))
        ((mmap (wrap (sizeofLong * A))).fill (passIdx A st)) hf hst hst2 hle hA hr hd rfl hlen
        (fun x hx => by simp [Buffer.fill, hx, toU64_one]) (wrap_lt _)
      rw [h1]
      exact ⟨j, _, _, fun h => by simpa [State.afterStores, loopState, State.start] using hjz h,
        Or.inl ⟨rfl, rfl, hj⟩⟩
    · simp only [hi, if_false]
      obtain ⟨j, hj, hjz⟩ := accessPhase fuel A st 0 reps delay d
        (loopState di d (mmap (wrap (sizeofLong * A)))
          (wrap (A / st + wrap (toU64 (wrapS (reps * outloopOf d (st : Int))) * (A / st)))))
        (mmap (wrap (sizeofLong * A))) hf hst hst2 hle hA hr hd rfl hlen
        (fun x _ => by simp [mmap, toU64_zero]) hp0
      have hnil := State.afterStores_nil
        (loopState di d (mmap (wrap (sizeofLong * A)))
          (wrap (A / st + wrap (toU64 (wrapS (reps * outloopOf d (st : Int))) * (A / st)))))
        (mmap (wrap (sizeofLong * A))) rfl hp0
      refine ⟨j, [], _, fun h => hjz h, Or.inl ⟨rfl, rfl, ?_⟩⟩
      rw [hnil]
      exact hj
  · have h63 : A < 2 ^ 63 + st := by
      by_contra h
      exact hmap (fun h1 => absurd h1 h)
    have h61 : 2 ^ 61 ≤ A := by
      by_contra h
      exact hmap (fun _ => by omega)
    obtain ⟨hfault, hok⟩ := strided_fault fuel A st reps delay di d hf hst hst2 hle hA h61 h63
    have hnil := loopState_nil di d (mmap (wrap (sizeofLong * A)))
      (wrap (A / st + wrap (toU64 (wrapS (reps * outloopOf d (st : Int))) * (A / st))))
      (if di ≠ 0 then 1 else 0) delay.toNat
    by_cases hcase : di ≠ 0 ∨ 0 < reps
    · refine ⟨0, [], [], fun _ => rfl, Or.inr ⟨rfl, rfl, h61, h63, ?_⟩⟩
      rw [hnil]
      exact hfault hcase
    · have hi : di = 0 := by
        by_contra h
        exact hcase (Or.inl h)
      have hr0 : reps ≤ 0 := by
        by_contra h
        exact hcase (Or.inr (by omega))
      have hR : reps.toNat = 0 := by omega
      refine ⟨0, [], [], fun _ => rfl, Or.inl ⟨by simp [hi], by simp [hR, repeatList], ?_⟩⟩
      rw [hnil]
      exact hok hi hr0

theorem strided_outcome (fuel A st : Nat) (reps delay di d : Int) (hf : 2 ^ 64 ≤ fuel)
    (hst : 0 < st) (hst2 : st < 2 ^ 31) (hle : st ≤ A) (hA : A < 2 ^ 64)
    (hr : IsInt reps) (hd : IsInt delay) :
    ∃ (sf : State) (Ls Ll : List Nat),
      ((Ls = (if di ≠ 0 then passIdx A st else [])
          ∧ Ll = repeatList reps.toNat (repeatList (if d ≠ 0 then st else 1) (passIdx A st))
          ∧ mainBody fuel A (st : Int) reps delay
              { State.start with doInit := di, doOuterLoop := d } = .ok sf)
        ∨ (Ls = [] ∧ Ll = [] ∧ 2 ^ 61 ≤ A ∧ A < 2 ^ 63 + st
          ∧ mainBody fuel A (st : Int) reps delay
              { State.start with doInit := di, doOuterLoop := d }
            = .error (Halt.badAccess, sf)))
      ∧ sf.completion = wrap (A / st + wrap (toU64 (wrapS
            (reps * outloopOf d (st : Int))) * (A / st)))
      ∧ sf.stores = Ls
      ∧ sf.loads = Ll
      ∧ sf.progress = wrap (Ls.length + Ll.length * (if di ≠ 0 then 1 else 0))
      ∧ sf.progressLog = logExt 0 1 Ls.length
          ++ logExt (wrap Ls.length) (if di ≠ 0 then 1 else 0) Ll.length
      ∧ sf.delayIters = Ll.length * delay.toNat
      ∧ (delay.toNat = 0 → sf.junk = 0)
      ∧ ∃ b, sf.a = some b ∧ ∀ x ∈ sf.stores, b.cell x = 1 := by
  obtain ⟨j, Ls, Ll, hjz, hcase⟩ :=
    strided_shape fuel A st reps delay di d hf hst hst2 hle hA hr hd
  obtain ⟨f1, f2, f3, f4, f5, f6, f7, f8⟩ := shape_fields di d
    (mmap (wrap (sizeofLong * A))) (mmap (wrap (sizeofLong * A)))
    (wrap (A / st + wrap (toU64 (wrapS (reps * outloopOf d (st : Int))) * (A / st))))
    Ls Ll (if di ≠ 0 then 1 else 0) delay.toNat j
  refine ⟨_, Ls, Ll, hcase, f1, f2, f3, f4, f5, f6, fun h => by rw [f7, hjz h], _, f8, ?_⟩
  intro x hx
  rw [f2] at hx
  simp only [Buffer.fill, hx, if_true]

theorem toU64_reps_outloop (R st : Nat) (d : Int) (hR : R < 2 ^ 31) (hst : st < 2 ^ 31) :
    toU64 (wrapS ((R : Int) * outloopOf d (st : Int))) = R * (if d ≠ 0 then st else 1) := by
  have hJ : (if d ≠ 0 then st else 1 : Nat) < 2 ^ 31 := by split <;> omega
  have hlt : R * (if d ≠ 0 then st else 1) < 2 ^ 31 * 2 ^ 31 := by
    rcases Nat.eq_zero_or_pos R with h0 | h0
    · rw [h0]; norm_num
    · exact Nat.mul_lt_mul'' hR hJ
  rw [outloopOf_cases, ← Int.natCast_mul, wrapS_of_range (by omega) (by
    have : ((R * (if d ≠ 0 then st else 1) : Nat) : Int) < 2 ^ 31 * 2 ^ 31 := by exact_mod_cast hlt
    omega)]
  exact toU64_natCast (by omega)

end Rpd

/-! ## Flag parsing -/

theorem leading_cons_dash (x : String) (rest : List String) (h : firstChar x = '-') :
    leading (x :: rest) = x :: leading rest := by
  simp [leading, List.takeWhile, h]

theorem leading_cons_other (x : String) (rest : List String) (h : firstChar x ≠ '-') :
    leading (x :: rest) = [] := by
  simp [leading, List.takeWhile, h]

theorem firstChar_noInit : firstChar "-no-init" = '-' := by decide

theorem firstChar_outer : firstChar "-with-outer-loop" = '-' := by decide

namespace Randpd

theorem random_handleOpts_ok (args : List String) (s : State)
    (h : ∀ x ∈ leading args, x = "-no-init") :
    handleOpts args s = .ok ((leading args).length,
      { s with doInit := if "-no-init" ∈ leading args then 0 else s.doInit }) := by
  induction args generalizing s with
  | nil => simp [handleOpts, leading]
  | cons x rest ih =>
    by_cases hx : firstChar x = '-'
    · rw [leading_cons_dash x rest hx] at h ⊢
      have hx1 : x = "-no-init" := h x (List.mem_cons_self _ _)
      have hrest : ∀ y ∈ leading rest, y = "-no-init" :=
        fun y hy => h y (List.mem_cons_of_mem _ hy)
      subst hx1
      simp only [handleOpts, ih _ hrest]
      simp [Nat.add_comm, firstChar_noInit]
    · rw [leading_cons_other x rest hx]
      simp [handleOpts, hx]

theorem random_handleOpts_exit (args : List String) (s : State)
    (h : ∃ x ∈ leading args, x ≠ "-no-init") :
    ∃ s1, handleOpts args s = .error (Halt.exit 1, s1) := by
  induction args generalizing s with
  | nil => simp [leading] at h
  | cons x rest ih =>
    by_cases hx : firstChar x = '-'
    · rw [leading_cons_dash x rest hx] at h
      by_cases hx1 : x = "-no-init"
      · obtain ⟨y, hy, hne⟩ := h
        have hy1 : y ∈ leading rest := by
          rcases List.mem_cons.1 hy with rfl | h1
          · exact absurd hx1 hne
          · exact h1
        obtain ⟨s1, hs1⟩ := ih { s with doInit := 0 } ⟨y, hy1, hne⟩
        exact ⟨s1, by simp [handleOpts, hx1, hs1, firstChar_noInit]⟩
      · exact ⟨s, by simp [handleOpts, hx, hx1]⟩
    · rw [leading_cons_other x rest hx] at h
      simp at h

theorem random_handleOpts_leading (args : List String) (s : State) :
    handleOpts args s = handleOpts (leading args) s := by
  induction args generalizing s with
  | nil => rfl
  | cons x rest ih =>
    by_cases hx : firstChar x = '-'
    · rw [leading_cons_dash x rest hx]
      simp only [handleOpts, hx, ih]
    · rw [leading_cons_other x rest hx]
      simp [handleOpts, hx]

theorem main_eq_mainBody (fuel : Nat) (rand : Nat → Int) (strtoull : String → Nat)
    (atoi : String → Int) (argv : List String) (x1 x2 x3 : String)
    (hflags : ∀ x ∈ leading argv, x = "-no-init")
    (h1 : argv.get? (leading argv).length = some x1)
    (h2 : argv.get? ((leading argv).length + 1) = some x2)
    (h3 : argv.get? ((leading argv).length + 2) = some x3) :
    main fuel rand strtoull atoi argv
      = mainBody fuel rand (strtoull x1) (strtoull x2) (atoi x3)
          { State.start with doInit := if "-no-init" ∈ leading argv then 0 else 1 } := by
  have hh := random_handleOpts_ok argv State.start hflags
  have e2 : (leading argv).length + 2 - 1 = (leading argv).length + 1 := by omega
  have e3 : (leading argv).length + 3 - 1 = (leading argv).length + 2 := by omega
  simp only [main, hh, argAt, Nat.add_sub_cancel, e2, e3, h1, h2, h3]
  rfl

end Randpd

namespace Rpd

theorem strided_handleOpts_ok (args : List String) (s : State)
    (h : ∀ x ∈ leading args, x = "-no-init" ∨ x = "-with-outer-loop") :
    handleOpts args s = .ok ((leading args).length,
      { s with doInit := if "-no-init" ∈ leading args then 0 else s.doInit,
               doOuterLoop := if "-with-outer-loop" ∈ leading args then 1 else s.doOuterLoop }) := by
  induction args generalizing s with
  | nil => simp [handleOpts, leading]
  | cons x rest ih =>
    by_cases hx : firstChar x = '-'
    · rw [leading_cons_dash x rest hx] at h ⊢
      have hrest : ∀ y ∈ leading rest, y = "-no-init" ∨ y = "-with-outer-loop" :=
        fun y hy => h y (List.mem_cons_of_mem _ hy)
      rcases h x (List.mem_cons_self _ _) with hx1 | hx1
      · subst hx1
        simp only [handleOpts, ih _ hrest]
        simp [Nat.add_comm, firstChar_noInit]
      · subst hx1
        simp only [handleOpts, ih _ hrest]
        simp [Nat.add_comm, firstChar_outer]
    · rw [leading_cons_other x rest hx]
      simp [handleOpts, hx]

theorem strided_handleOpts_exit (args : List String) (s : State)
    (h : ∃ x ∈ leading args, x ≠ "-no-init" ∧ x ≠ "-with-outer-loop") :
    ∃ s1, handleOpts args s = .error (Halt.exit 1, s1) := by
  induction args generalizing s with
  | nil => simp [leading] at h
  | cons x rest ih =>
    by_cases hx : firstChar x = '-'
    · rw [leading_cons_dash x rest hx] at h
      have tail : (x = "-no-init" ∨ x = "-with-outer-loop") →
          ∃ y ∈ leading rest, y ≠ "-no-init" ∧ y ≠ "-with-outer-loop" := by
        intro hrec
        obtain ⟨y, hy, hne⟩ := h
        rcases List.mem_cons.1 hy with rfl | h1
        · rcases hrec with h2 | h2
          · exact absurd h2 hne.1
          · exact absurd h2 hne.2
        · exact ⟨y, h1, hne⟩
      by_cases hx1 : x = "-no-init"
      · obtain ⟨s1, hs1⟩ := ih { s with doInit := 0 } (tail (Or.inl hx1))
        exact ⟨s1, by simp [handleOpts, hx1, hs1, firstChar_noInit]⟩
      · by_cases hx2 : x = "-with-outer-loop"
        · obtain ⟨s1, hs1⟩ := ih { s with doOuterLoop := 1 } (tail (Or.inr hx2))
          exact ⟨s1, by simp [handleOpts, hx2, hs1, firstChar_outer]⟩
        · exact ⟨s, by simp [handleOpts, hx, hx1, hx2]⟩
    · rw [leading_cons_other x rest hx] at h
      simp at h

theorem strided_handleOpts_leading (args : List String) (s : State) :
    handleOpts args s = handleOpts (leading args) s := by
  induction args generalizing s with
  | nil => rfl
  | cons x rest ih =>
    by_cases hx : firstChar x = '-'
    · rw [leading_cons_dash x rest hx]
      simp only [handleOpts, hx, ih]
    · rw [leading_cons_other x rest hx]
      simp [handleOpts, hx]

theorem strided_main_eq_mainBody (fuel : Nat) (strtoull : String → Nat)
    (atoi : String → Int) (argv : List String) (x1 x2 x3 x4 : String)
    (hflags : ∀ x ∈ leading argv, x = "-no-init" ∨ x = "-with-outer-loop")
    (h1 : argv.get? (leading argv).length = some x1)
    (h2 : argv.get? ((leading argv).length + 1) = some x2)
    (h3 : argv.get? ((leading argv).length + 2) = some x3)
    (h4 : argv.get? ((leading argv).length + 3) = some x4) :
    main fuel strtoull atoi argv
      = mainBody fuel (strtoull x1) (atoi x2) (atoi x3) (atoi x4)
          { State.start with
              doInit := if "-no-init" ∈ leading argv then 0 else 1,
              doOuterLoop := if "-with-outer-loop" ∈ leading argv then 1 else 0 } := by
  have hh := strided_handleOpts_ok argv State.start hflags
  have e2 : (leading argv).length + 2 - 1 = (leading argv).length + 1 := by omega
  have e3 : (leading argv).length + 3 - 1 = (leading argv).length + 2 := by omega
  have e4 : (leading argv).length + 4 - 1 = (leading argv).length + 3 := by omega
  simp only [main, hh, argAt, Nat.add_sub_cancel, e2, e3, e4, h1, h2, h3, h4]
  rfl

end Rpd

/-- C10: `handleOpts` of both programs looks only at the leading arguments
that begin with `'-'`.  When all of them are recognised flags it returns their
number, with `doInit` set to 0 when `-no-init` is among them (and, in `rpd.c`,
`doOuterLoop` set to 1 when `-with-outer-loop` is) and every other global
unchanged; from the start state `doInit` ends as 0 exactly when `-no-init` is
among them and `doOuterLoop` as 1 exactly when `-with-outer-loop` is.  When
one of them is not a recognised flag the process ends by `exit(1)`.  The
arguments after the first one not beginning with `'-'` do not affect the
result. -/
theorem handleOpts_scans_leading_flags (args : List String) (s : State) :
    ((∀ x ∈ leading args, x = "-no-init") →
        Randpd.handleOpts args s = .ok ((leading args).length,
          { s with doInit := if "-no-init" ∈ leading args then 0 else s.doInit })
        ∧ ∃ s1, Randpd.handleOpts args State.start = .ok ((leading args).length, s1)
            ∧ (s1.doInit = 0 ↔ "-no-init" ∈ leading args))
    ∧ ((∃ x ∈ leading args, x ≠ "-no-init") →
        ∃ s1, Randpd.handleOpts args s = .error (Halt.exit 1, s1))
    ∧ (∀ rest rest1 : List String, ∀ x : String, firstChar x ≠ '-' →
        Randpd.handleOpts (leading args ++ x :: rest) s
          = Randpd.handleOpts (leading args ++ x :: rest1) s)
    ∧ ((∀ x ∈ leading args, x = "-no-init" ∨ x = "-with-outer-loop") →
        Rpd.handleOpts args s = .ok ((leading args).length,
          { s with doInit := if "-no-init" ∈ leading args then 0 else s.doInit,
                   doOuterLoop :=
                     if "-with-outer-loop" ∈ leading args then 1 else s.doOuterLoop })
        ∧ ∃ s1, Rpd.handleOpts args State.start = .ok ((leading args).length, s1)
            ∧ (s1.doInit = 0 ↔ "-no-init" ∈ leading args)
            ∧ (s1.doOuterLoop = 1 ↔ "-with-outer-loop" ∈ leading args))
    ∧ ((∃ x ∈ leading args, x ≠ "-no-init" ∧ x ≠ "-with-outer-loop") →
        ∃ s1, Rpd.handleOpts args s = .error (Halt.exit 1, s1))
    ∧ (∀ rest rest1 : List String, ∀ x : String, firstChar x ≠ '-' →
        Rpd.handleOpts (leading args ++ x :: rest) s
          = Rpd.handleOpts (leading args ++ x :: rest1) s) := by
  have lead_app : ∀ (rest : List String) (x : String), firstChar x ≠ '-' →
      leading (leading args ++ x :: rest) = leading args := by
    intro rest x hx
    induction args with
    | nil => exact leading_cons_other x rest hx
    | cons y ys ih =>
      by_cases hy : firstChar y = '-'
      · rw [leading_cons_dash y ys hy, List.cons_append, leading_cons_dash y _ hy, ih]
      · rw [leading_cons_other y ys hy]; exact leading_cons_other x rest hx
  refine ⟨fun h => ⟨Randpd.random_handleOpts_ok args s h, _, Randpd.random_handleOpts_ok args _ h, ?_⟩,
    Randpd.random_handleOpts_exit args s, ?_,
    fun h => ⟨Rpd.strided_handleOpts_ok args s h, _, Rpd.strided_handleOpts_ok args _ h, ?_, ?_⟩,
    Rpd.strided_handleOpts_exit args s, ?_⟩
  · by_cases hm : "-no-init" ∈ leading args <;> simp [hm, State.start]
  · intro rest rest1 x hx
    rw [Randpd.random_handleOpts_leading (leading args ++ x :: rest),
      Randpd.random_handleOpts_leading (leading args ++ x :: rest1), lead_app rest x hx,
      lead_app rest1 x hx]
  · by_cases hm : "-no-init" ∈ leading args <;> simp [hm, State.start]
  · by_cases hm : "-with-outer-loop" ∈ leading args <;> simp [hm, State.start]
  · intro rest rest1 x hx
    rw [Rpd.strided_handleOpts_leading (leading args ++ x :: rest),
      Rpd.strided_handleOpts_leading (leading args ++ x :: rest1), lead_app rest x hx,
      lead_app rest1 x hx]

/-- C10, witness: on `-no-init -with-outer-loop 8 -x` the strided
`handleOpts` returns 2 with both flags set and never looks at `-x`, while the
random one, which does not know `-with-outer-loop`, ends by `exit(1)`. -/
theorem handleOpts_scans_leading_flags_witness :
    Rpd.handleOpts ["-no-init", "-with-outer-loop", "8", "-x"] State.start
      = .ok (2, { State.start with doInit := 0, doOuterLoop := 1 })
    ∧ ∃ s1, Randpd.handleOpts ["-no-init", "-with-outer-loop", "8", "-x"] State.start
        = .error (Halt.exit 1, s1) :=
  ⟨((handleOpts_scans_leading_flags ["-no-init", "-with-outer-loop", "8", "-x"]
      State.start).2.2.2.1 (by decide)).1,
    (handleOpts_scans_leading_flags ["-no-init", "-with-outer-loop", "8", "-x"]
      State.start).2.1 (by decide)⟩

namespace Rpd

theorem handleOpts_halt_unmapped (args : List String) (s s1 : State) (h : Halt)
    (hrun : handleOpts args s = .error (h, s1)) (hs : s.a = none) : s1.a = none := by
  induction args generalizing s with
  | nil => simp [handleOpts] at hrun
  | cons x rest ih =>
    unfold handleOpts at hrun
    split at hrun
    · simp at hrun
    · split at hrun
      · cases hrec : handleOpts rest { s with doInit := 0 } with
        | error e =>
          rw [hrec] at hrun
          simp only [Except.error.injEq] at hrun
          subst hrun
          exact ih _ hrec hs
        | ok v => rw [hrec] at hrun; simp at hrun
      · split at hrun
        · cases hrec : handleOpts rest { s with doOuterLoop := 1 } with
          | error e =>
            rw [hrec] at hrun
            simp only [Except.error.injEq] at hrun
            subst hrun
            exact ih _ hrec hs
          | ok v => rw [hrec] at hrun; simp at hrun
        · simp only [Except.error.injEq, Prod.mk.injEq] at hrun
          rw [← hrun.2]; exact hs

theorem mainBody_stride_zero (fuel arraySize : Nat) (reps delay : Int) (s : State) :
    mainBody fuel arraySize 0 reps delay s
      = .error (Halt.divByZero, { s with a := some (mmap (wrap (sizeofLong * arraySize))) }) := by
  have hw : workingSetSize arraySize 0 = some (wrap (arraySize * sizeofLong)) := by
    simp [workingSetSize, toU64_zero, wrap]
  have hc : ∀ outloop, completionOf arraySize 0 reps outloop = none := by
    intro outloop
    simp [completionOf, toU64_zero]
  simp only [mainBody, hw, hc]

end Rpd

/-! ## Progress and completion -/

/-- C1, counterexample: with `arraySize = 2 ^ 63 + 1`, `stride = 1` and
`reps = 0` (so `0 < stride <= arraySize` and `reps >= 0`) and initialisation
enabled, the strided run returns normally with `progress = 0` while
`completion = arraySize / stride = 2 ^ 63 + 1`: the initial index
`arraySize - stride = 2 ^ 63` is negative as a `long long`. -/
theorem strided_progress_misses_completion :
    (0 : Int) < 1 ∧ (1 : Nat) ≤ 2 ^ 63 + 1 ∧ State.start.doInit = 1
    ∧ finalValue (fun s => (s.progress, s.completion))
        (Rpd.mainBody (2 ^ 64) (2 ^ 63 + 1) 1 0 0 State.start)
      = some (0, (2 ^ 63 + 1) / 1 + 0 * 1 * ((2 ^ 63 + 1) / 1)) := by
  refine ⟨by decide, by decide, rfl, ?_⟩
  decide

/-- C1 (amended): with initialisation enabled a run that returns normally ends
with `progress` equal to `completion`.  Random variant: for every
`arraySize > 0` and `accesses` (unsigned 64-bit values) the final `progress`
is `arraySize + accesses` reduced modulo `2 ^ 64`, hence `arraySize +
accesses` itself when that sum is below `2 ^ 64`.  Strided variant: for every
`0 < stride <= arraySize` with `arraySize - stride < 2 ^ 63` and every
`reps >= 0` the final `progress` is
`arraySize/stride + reps * outloop * (arraySize/stride)` reduced modulo
`2 ^ 64`, every index read in the access phase is one the initialisation
loop wrote, and those cells hold 1.  In both variants the run returns
normally when `arraySize < 2 ^ 61`, where the byte count
`sizeof(long) * arraySize` does not wrap. -/
theorem progress_equals_completion_after_init :
    (∀ (fuel : Nat) (rand : Nat → Int) (arraySize accesses : Nat) (delay : Int),
      2 ^ 64 ≤ fuel → 0 < arraySize → arraySize < 2 ^ 64 → accesses < 2 ^ 64 →
      (∀ s, Randpd.mainBody fuel rand arraySize accesses delay State.start = .ok s →
        s.progress = s.completion
        ∧ s.progress = wrap (arraySize + accesses)
        ∧ (arraySize + accesses < 2 ^ 64 → s.progress = arraySize + accesses))
      ∧ (arraySize < 2 ^ 61 →
          ∃ s, Randpd.mainBody fuel rand arraySize accesses delay State.start = .ok s))
    ∧ (∀ (fuel arraySize stride reps : Nat) (delay d : Int),
      2 ^ 64 ≤ fuel → stride < 2 ^ 31 → reps < 2 ^ 31 → IsInt delay → arraySize < 2 ^ 64 →
      0 < stride → stride ≤ arraySize → arraySize < 2 ^ 63 + stride →
      (∀ s, Rpd.mainBody fuel arraySize (stride : Int) (reps : Int) delay
            { State.start with doOuterLoop := d } = .ok s →
        s.progress = s.completion
        ∧ s.progress = wrap (arraySize / stride
            + reps * (if d ≠ 0 then stride else 1) * (arraySize / stride))
        ∧ (arraySize / stride + reps * (if d ≠ 0 then stride else 1) * (arraySize / stride)
              < 2 ^ 64 →
            s.progress = arraySize / stride
              + reps * (if d ≠ 0 then stride else 1) * (arraySize / stride))
        ∧ (∀ x ∈ s.loads, x ∈ s.stores)
        ∧ ∃ b, s.a = some b ∧ ∀ x ∈ s.stores, b.cell x = 1)
      ∧ (arraySize < 2 ^ 61 →
          ∃ s, Rpd.mainBody fuel arraySize (stride : Int) (reps : Int) delay
            { State.start with doOuterLoop := d } = .ok s)) := by
  constructor
  · intro fuel rand arraySize accesses delay hf hA0 hA hN
    obtain ⟨sf, ms, ml, hcase, hok, _, _, hc, _, _, hp, _⟩ :=
      Randpd.random_outcome fuel rand arraySize accesses delay 1 hf hA0 hA hN
    refine ⟨fun s hs => ?_, fun h => ⟨sf, hok h⟩⟩
    rcases hcase with ⟨hms, hml, hrun⟩ | herr
    · have hs1 : sf = s := Except.ok.inj (hrun.symm.trans hs)
      subst hs1
      have hp1 : sf.progress = wrap (arraySize + accesses) := by
        rw [hp, hms, hml]; simp
      exact ⟨by rw [hp1, hc], hp1, fun h => by rw [hp1, wrap_of_lt h]⟩
    · exact absurd (herr.symm.trans hs) (by simp)
  · intro fuel arraySize stride reps delay d hf hst2 hR hd hA hst hle hA2
    obtain ⟨sf, Ls, Ll, hcase, hc, hsto, hl, hp, _, _, _, b, hb, hcell⟩ :=
      Rpd.strided_outcome fuel arraySize stride (reps : Int) delay 1 d hf hst hst2 hle hA
        ⟨by omega, by exact_mod_cast hR⟩ hd
    refine ⟨fun s hs => ?_, fun h => ?_⟩
    · rcases hcase with ⟨hLs, hLl, hrun⟩ | ⟨_, _, _, _, herr⟩
      · have hs1 : sf = s := Except.ok.inj (hrun.symm.trans hs)
        subst hs1
        have hlen := length_passIdx hA2
        have hp1 : sf.progress = wrap (arraySize / stride
            + reps * (if d ≠ 0 then stride else 1) * (arraySize / stride)) := by
          rw [hp, hLs, hLl]
          simp only [ne_eq, one_ne_zero, not_false_eq_true, if_true, hlen, Int.toNat_ofNat,
            mul_one, Nat.mul_assoc, length_repeatList]
        have hc1 : sf.completion = wrap (arraySize / stride
            + reps * (if d ≠ 0 then stride else 1) * (arraySize / stride)) := by
          rw [hc, Rpd.toU64_reps_outloop reps stride d hR hst2, wrap_add_wrap_right]
        refine ⟨by rw [hp1, hc1], hp1, fun h => by rw [hp1, wrap_of_lt h], ?_, b, hb, hcell⟩
        intro x hx
        rw [hl, hLl] at hx
        rw [hsto, hLs]
        simpa using mem_repeatList (mem_repeatList hx)
      · exact absurd (herr.symm.trans hs) (by simp)
    · rcases hcase with ⟨_, _, hrun⟩ | ⟨_, _, h61, _, _⟩
      · exact ⟨sf, hrun⟩
      · omega

/-- C1, witness: the scenario of the specification (`arraySize = 1024`,
`accesses = 500`, `delay = 0`) ends with `progress = 1524`, and a strided run
with `arraySize = 10`, `stride = 3`, `reps = 2` and the outer loop ends with
`progress = 3 + 2 * 3 * 3`. -/
theorem progress_equals_completion_after_init_witness :
    (∃ s, Randpd.mainBody (2 ^ 64) (fun k => (k : Int)) 1024 500 0 State.start = .ok s
      ∧ s.progress = s.completion ∧ s.progress = 1524)
    ∧ (∃ s, Rpd.mainBody (2 ^ 64) 10 ((3 : Nat) : Int) ((2 : Nat) : Int) 0
          { State.start with doOuterLoop := 1 } = .ok s
      ∧ s.progress = s.completion ∧ s.progress = 21) := by
  constructor
  · obtain ⟨h1, h2⟩ := progress_equals_completion_after_init.1 (2 ^ 64)
      (fun k => (k : Int)) 1024 500 0 (le_refl _) (by decide) (by decide) (by decide)
    obtain ⟨s, hs⟩ := h2 (by decide)
    obtain ⟨e1, _, e3⟩ := h1 s hs
    exact ⟨s, hs, e1, e3 (by decide)⟩
  · obtain ⟨h1, h2⟩ := progress_equals_completion_after_init.2 (2 ^ 64) 10 3 2 0 1
      (le_refl _) (by decide) (by decide) (by decide) (by decide) (by decide) (by decide)
      (by decide)
    obtain ⟨s, hs⟩ := h2 (by decide)
    obtain ⟨e1, _, e3, _⟩ := h1 s hs
    exact ⟨s, hs, e1, e3 (by decide)⟩

/-- C2, failing input: `randpd -no-init 4 2 0` performs no initialisation
step and two access steps, yet `completion` is `4 + 2 = 6`; `rpd -no-init 4 1
1 0` performs no initialisation step and four access steps, yet `completion`
is `4 + 4 = 8`. -/
theorem completion_counts_skipped_init :
    finalValue (fun s => (s.completion, s.stores.length, s.loads.length))
        (Randpd.main (2 ^ 64) (fun _ => 0)
          (fun x => if x = "4" then 4 else if x = "2" then 2 else 0) (fun _ => 0)
          ["-no-init", "4", "2", "0"])
      = some (6, 0, 2)
    ∧ finalValue (fun s => (s.completion, s.stores.length, s.loads.length))
        (Rpd.main (2 ^ 64) (fun x => if x = "4" then 4 else 0)
          (fun x => if x = "1" then 1 else 0)
          ["-no-init", "4", "1", "1", "0"])
      = some (8, 0, 4) := by
  constructor <;> decide

/-! ## Stride zero -/

/-- C3, counterexample: `rpd 4 0 1 0` (stride 0, no flags) is not rejected by
`exit(1)`; it halts on a division with a zero divisor, and the buffer is
already mapped at that point. -/
theorem stride_zero_not_rejected :
    haltOf (Rpd.main (2 ^ 64) (fun x => if x = "4" then 4 else 0)
        (fun x => if x = "1" then 1 else 0) ["4", "0", "1", "0"])
      = some (Halt.divByZero, true) := by
  decide

/-- C3 (amended): `rpd.c` rejects only unrecognised flags, by `exit(1)` before
the buffer is mapped.  With recognised flags and `stride = 0` the run is not
rejected: the working-set estimate takes the branch without a division (so no
division by `stride` is evaluated there), the buffer is mapped, and the run
then halts in the computation of `completion`, whose division by `stride` has
a zero divisor. -/
theorem stride_zero_halts_after_mapping (fuel : Nat) (strtoull : String → Nat)
    (atoi : String → Int) (argv : List String) (x1 x2 x3 x4 : String)
    (hflags : ∀ x ∈ leading argv, x = "-no-init" ∨ x = "-with-outer-loop")
    (h1 : argv.get? (leading argv).length = some x1)
    (h2 : argv.get? ((leading argv).length + 1) = some x2)
    (h3 : argv.get? ((leading argv).length + 2) = some x3)
    (h4 : argv.get? ((leading argv).length + 3) = some x4)
    (hstride : atoi x2 = 0) :
    haltOf (Rpd.main fuel strtoull atoi argv) = some (Halt.divByZero, true)
    ∧ Rpd.workingSetSize (strtoull x1) (atoi x2) = some (wrap (strtoull x1 * sizeofLong))
    ∧ ∀ (bad : String) (rest : List String), firstChar bad = '-' → bad ≠ "-no-init" →
        bad ≠ "-with-outer-loop" →
        haltOf (Rpd.main fuel strtoull atoi (leading argv ++ bad :: rest))
          = some (Halt.exit 1, false) := by
  refine ⟨?_, ?_, ?_⟩
  · have hh := Rpd.strided_handleOpts_ok argv State.start hflags
    have e2 : (leading argv).length + 2 - 1 = (leading argv).length + 1 := by omega
    have e3 : (leading argv).length + 3 - 1 = (leading argv).length + 2 := by omega
    have e4 : (leading argv).length + 4 - 1 = (leading argv).length + 3 := by omega
    simp only [Rpd.main, hh, argAt, Nat.add_sub_cancel, e2, e3, e4, h1, h2, h3, h4, hstride,
      Rpd.mainBody_stride_zero]
    rfl
  · rw [hstride]
    simp [Rpd.workingSetSize, toU64_zero, wrap]
  · intro bad rest hb hn1 hn2
    have hlead : leading (leading argv ++ bad :: rest) = leading argv ++ bad :: leading rest := by
      clear hflags h1 h2 h3 h4
      induction argv with
      | nil => exact leading_cons_dash bad rest hb
      | cons y ys ih =>
        by_cases hy : firstChar y = '-'
        · rw [leading_cons_dash y ys hy, List.cons_append, leading_cons_dash y _ hy, ih,
            List.cons_append]
        · rw [leading_cons_other y ys hy]; exact leading_cons_dash bad rest hb
    obtain ⟨s1, hs1⟩ := Rpd.strided_handleOpts_exit (leading argv ++ bad :: rest) State.start
      ⟨bad, by rw [hlead]; simp, hn1, hn2⟩
    have hnone : s1.a = none := Rpd.handleOpts_halt_unmapped _ _ _ _ hs1 rfl
    simp only [Rpd.main, hs1, haltOf, hnone]
    rfl

/-- C3, witness: `rpd -no-init 4 0 1 0` halts on the zero divisor with the
buffer mapped, and `rpd -no-init -x 4` is rejected by `exit(1)` before the
buffer is mapped. -/
theorem stride_zero_halts_after_mapping_witness :
    haltOf (Rpd.main (2 ^ 64) (fun x => if x = "4" then 4 else 0)
        (fun x => if x = "1" then 1 else 0) ["-no-init", "4", "0", "1", "0"])
      = some (Halt.divByZero, true)
    ∧ haltOf (Rpd.main (2 ^ 64) (fun x => if x = "4" then 4 else 0)
        (fun x => if x = "1" then 1 else 0)
        (leading ["-no-init", "4", "0", "1", "0"] ++ "-x" :: ["4"]))
      = some (Halt.exit 1, false) := by
  have h := stride_zero_halts_after_mapping (2 ^ 64) (fun x => if x = "4" then 4 else 0)
    (fun x => if x = "1" then 1 else 0) ["-no-init", "4", "0", "1", "0"] "4" "0" "1" "0"
    (by decide) (by decide) (by decide) (by decide) (by decide) (by decide)
  exact ⟨h.1, h.2.2 "-x" ["4"] (by decide) (by decide) (by decide)⟩

/-! ## The strided traversal -/

/-- C5, counterexample: with `arraySize = 2 ^ 63 + 1`, `stride = 1`, one
repetition and the outer loop, the run returns normally after no buffer
access at all, although `stride * (arraySize / stride) = 2 ^ 63 + 1`; with
`arraySize = 2 ^ 62` (no initialisation) the mapping has no cell and the run
halts at its first read, having completed no access; and with
`arraySize = 10`, `stride = 3` and `reps = -1` the run returns normally after
no access, while `reps * outloop * (arraySize / stride)` is `-9`. -/
theorem outer_loop_accesses_missing :
    ((0 : Nat) < 1 ∧ (1 : Nat) ≤ 2 ^ 63 + 1
      ∧ finalValue (fun s => s.loads.length)
          (Rpd.mainBody (2 ^ 64) (2 ^ 63 + 1) 1 1 0 { State.start with doOuterLoop := 1 })
        = some 0
      ∧ 1 * ((2 ^ 63 + 1) / 1) ≠ 0)
    ∧ (haltValue (fun s => s.loads.length)
          (Rpd.mainBody (2 ^ 64) (2 ^ 62) 1 1 0
            { State.start with doInit := 0, doOuterLoop := 1 })
        = some (Halt.badAccess, 0)
      ∧ 1 * (2 ^ 62 / 1) ≠ 0)
    ∧ (finalValue (fun s => (s.loads.length : Int))
          (Rpd.mainBody (2 ^ 64) 10 3 (-1) 0 { State.start with doOuterLoop := 1 })
        = some 0
      ∧ (-1 : Int) * 3 * (10 / 3) ≠ 0) := by
  decide

/-- C5 (amended): for `0 < stride <= arraySize < 2 ^ 61`, one repetition with
the outer loop makes exactly `stride * (arraySize / stride)` buffer accesses,
`stride` times the `arraySize / stride` accesses of one repetition without
it; a whole run with `reps >= 0` makes `reps * outloop * (arraySize / stride)`
accesses.  For `2 ^ 61 <= arraySize` with `arraySize - stride < 2 ^ 63` a
repetition halts at its first buffer access, outside the mapping. -/
theorem outer_loop_scales_accesses (fuel arraySize stride reps : Nat) (delay di d : Int)
    (hf : 2 ^ 64 ≤ fuel) (hst2 : stride < 2 ^ 31) (hr : reps < 2 ^ 31) (hd : IsInt delay)
    (hA : arraySize < 2 ^ 64) (hst : 0 < stride) (hle : stride ≤ arraySize)
    (hA2 : arraySize < 2 ^ 63 + stride) :
    (arraySize < 2 ^ 61 →
      ∃ s1 s0 s,
        Rpd.mainBody fuel arraySize (stride : Int) ((1 : Nat) : Int) delay
            { State.start with doInit := di, doOuterLoop := 1 } = .ok s1
        ∧ Rpd.mainBody fuel arraySize (stride : Int) ((1 : Nat) : Int) delay
            { State.start with doInit := di, doOuterLoop := 0 } = .ok s0
        ∧ Rpd.mainBody fuel arraySize (stride : Int) (reps : Int) delay
            { State.start with doInit := di, doOuterLoop := d } = .ok s
        ∧ s1.loads.length = stride * (arraySize / stride)
        ∧ s0.loads.length = arraySize / stride
        ∧ s1.loads.length = stride * s0.loads.length
        ∧ s.loads.length = reps * (if d ≠ 0 then stride else 1) * (arraySize / stride))
    ∧ (2 ^ 61 ≤ arraySize →
        ∃ s, Rpd.mainBody fuel arraySize (stride : Int) ((1 : Nat) : Int) delay
            { State.start with doInit := di, doOuterLoop := 1 } = .error (Halt.badAccess, s)
          ∧ s.loads.length = 0) := by
  have hlen := length_passIdx hA2
  constructor
  · intro h61
    obtain ⟨s1, _, Ll1, hcase1, _, _, hl1, _⟩ := Rpd.strided_outcome fuel arraySize stride
      ((1 : Nat) : Int) delay di 1 hf hst hst2 hle hA (by decide) hd
    obtain ⟨s0, _, Ll0, hcase0, _, _, hl0, _⟩ := Rpd.strided_outcome fuel arraySize stride
      ((1 : Nat) : Int) delay di 0 hf hst hst2 hle hA (by decide) hd
    obtain ⟨s, _, Ll, hcase, _, _, hl, _⟩ := Rpd.strided_outcome fuel arraySize stride
      (reps : Int) delay di d hf hst hst2 hle hA ⟨by omega, by exact_mod_cast hr⟩ hd
    rcases hcase1 with ⟨_, hL1, hrun1⟩ | ⟨_, _, h, _, _⟩
    · rcases hcase0 with ⟨_, hL0, hrun0⟩ | ⟨_, _, h, _, _⟩
      · rcases hcase with ⟨_, hL, hrun⟩ | ⟨_, _, h, _, _⟩
        · have e1 : s1.loads.length = stride * (arraySize / stride) := by
            rw [hl1, hL1]; simp [length_repeatList, hlen]
          have e0 : s0.loads.length = arraySize / stride := by
            rw [hl0, hL0]; simp [length_repeatList, hlen]
          refine ⟨s1, s0, s, hrun1, hrun0, hrun, e1, e0, by rw [e1, e0], ?_⟩
          rw [hl, hL, length_repeatList, length_repeatList, hlen, Int.toNat_ofNat,
            Nat.mul_assoc]
        · omega
      · omega
    · omega
  · intro h61
    exact ⟨_, (Rpd.strided_fault fuel arraySize stride ((1 : Nat) : Int) delay di 1 hf hst hst2
      hle hA h61 hA2).1 (Or.inr (by decide)), rfl⟩

/-- C5, witness: `arraySize = 10`, `stride = 3`, two repetitions with the
outer loop. -/
theorem outer_loop_scales_accesses_witness :
    ∃ s1 s0 s,
      Rpd.mainBody (2 ^ 64) 10 ((3 : Nat) : Int) ((1 : Nat) : Int) 0
          { State.start with doInit := 1, doOuterLoop := 1 } = .ok s1
      ∧ Rpd.mainBody (2 ^ 64) 10 ((3 : Nat) : Int) ((1 : Nat) : Int) 0
          { State.start with doInit := 1, doOuterLoop := 0 } = .ok s0
      ∧ Rpd.mainBody (2 ^ 64) 10 ((3 : Nat) : Int) ((2 : Nat) : Int) 0
          { State.start with doInit := 1, doOuterLoop := 1 } = .ok s
      ∧ s1.loads.length = 3 * (10 / 3)
      ∧ s0.loads.length = 10 / 3
      ∧ s1.loads.length = 3 * s0.loads.length
      ∧ s.loads.length = 2 * (if (1 : Int) ≠ 0 then 3 else 1) * (10 / 3) :=
  (outer_loop_scales_accesses (2 ^ 64) 10 3 2 0 1 1 (le_refl _) (by decide) (by decide)
    (by decide) (by decide) (by decide) (by decide) (by decide)).1 (by decide)

/-! ## Delay loop and random index -/

/-- C9: for every non-negative `int` value `K` of `delay`, the delay loop of
either program, entered with `l = 0`, runs exactly `K` iterations; a run that
returns normally has therefore executed `K` delay iterations per buffer
access (`K` times the number of accesses), and with `K = 0` none at all,
`junk` keeping its initial value 0.  Runs with `arraySize < 2 ^ 61` return
normally. -/
theorem delay_iterations_per_access (fuel K : Nat) (hf : 2 ^ 64 ≤ fuel) (hK : K < 2 ^ 31) :
    (∀ (i : Nat) (s : State), ∃ j,
        Randpd.delayLoop (K : Int) i fuel 0 s
          = .ok { s with junk := j, delayIters := s.delayIters + K }
        ∧ (K = 0 → j = s.junk))
    ∧ (∀ (i j k : Int) (s : State), ∃ jk,
        Rpd.delayLoop (K : Int) i j k fuel 0 s
          = .ok { s with junk := jk, delayIters := s.delayIters + K }
        ∧ (K = 0 → jk = s.junk))
    ∧ (∀ (rand : Nat → Int) (arraySize accesses : Nat) (di : Int),
        0 < arraySize → arraySize < 2 ^ 64 → accesses < 2 ^ 64 →
        (∀ s, Randpd.mainBody fuel rand arraySize accesses (K : Int)
              { State.start with doInit := di } = .ok s →
          s.loads.length = accesses
          ∧ s.delayIters = K * s.loads.length
          ∧ (K = 0 → s.delayIters = 0 ∧ s.junk = 0))
        ∧ (arraySize < 2 ^ 61 →
            ∃ s, Randpd.mainBody fuel rand arraySize accesses (K : Int)
              { State.start with doInit := di } = .ok s))
    ∧ (∀ (arraySize stride : Nat) (reps di d : Int),
        0 < stride → stride < 2 ^ 31 → stride ≤ arraySize → arraySize < 2 ^ 64 → IsInt reps →
        (∀ s, Rpd.mainBody fuel arraySize (stride : Int) reps (K : Int)
              { State.start with doInit := di, doOuterLoop := d } = .ok s →
          s.delayIters = K * s.loads.length
          ∧ (K = 0 → s.delayIters = 0 ∧ s.junk = 0))
        ∧ (arraySize < 2 ^ 61 →
            ∃ s, Rpd.mainBody fuel arraySize (stride : Int) reps (K : Int)
              { State.start with doInit := di, doOuterLoop := d } = .ok s)) := by
  have hKu : toU64 (K : Int) = K := toU64_natCast (by omega)
  refine ⟨?_, ?_, ?_, ?_⟩
  · intro i s
    have := Randpd.random_delayLoop_run (K : Int) i K fuel 0 s (by omega) (by omega)
    exact this
  · intro i j k s
    exact Rpd.strided_delayLoop_run (K : Int) i j k (by omega) K fuel 0 s (le_refl _) (by omega)
      (by omega)
  · intro rand arraySize accesses di hA0 hA hN
    obtain ⟨sf, ms, ml, hcase, hok, _, _, _, _, hl, _, _, hdl, hj, _⟩ :=
      Randpd.random_outcome fuel rand arraySize accesses (K : Int) di hf hA0 hA hN
    rw [hKu] at hdl hj
    refine ⟨fun s hs => ?_, fun h => ⟨sf, hok h⟩⟩
    rcases hcase with ⟨_, hml, hrun⟩ | herr
    · have hs1 : sf = s := Except.ok.inj (hrun.symm.trans hs)
      subst hs1
      have hlen : sf.loads.length = accesses := by rw [hl]; simp [hml]
      have hml2 : ml = sf.loads.length := by rw [hlen, hml]
      refine ⟨hlen, by rw [hdl, hml2, Nat.mul_comm], fun h0 => ⟨?_, hj h0⟩⟩
      rw [hdl, h0, Nat.mul_zero]
    · exact absurd (herr.symm.trans hs) (by simp)
  · intro arraySize stride reps di d hst hst2 hle hA hr
    obtain ⟨sf, Ls, Ll, hcase, _, _, hl, _, _, hdl, hj, _⟩ :=
      Rpd.strided_outcome fuel arraySize stride reps (K : Int) di d hf hst hst2 hle hA hr
        ⟨by omega, by exact_mod_cast hK⟩
    rw [Int.toNat_ofNat] at hdl hj
    refine ⟨fun s hs => ?_, fun h => ?_⟩
    · rcases hcase with ⟨_, _, hrun⟩ | ⟨_, _, _, _, herr⟩
      · have hs1 : sf = s := Except.ok.inj (hrun.symm.trans hs)
        subst hs1
        refine ⟨?_, fun h0 => ⟨?_, hj h0⟩⟩
        · rw [hdl, hl, Nat.mul_comm]
        · rw [hdl, h0, Nat.mul_zero]
      · exact absurd (herr.symm.trans hs) (by simp)
    · rcases hcase with ⟨_, _, hrun⟩ | ⟨_, _, h61, _, _⟩
      · exact ⟨sf, hrun⟩
      · omega

/-- C9, witness: `K = 2` on a random run of three accesses and on a strided
run, and `K = 0`. -/
theorem delay_iterations_per_access_witness :
    (∃ s, Randpd.mainBody (2 ^ 64) (fun k => (k : Int)) 4 3 ((2 : Nat) : Int)
          { State.start with doInit := 1 } = .ok s
      ∧ s.loads.length = 3 ∧ s.delayIters = 2 * s.loads.length)
    ∧ (∃ s, Rpd.mainBody (2 ^ 64) 10 ((3 : Nat) : Int) 2 ((0 : Nat) : Int)
          { State.start with doInit := 1, doOuterLoop := 0 } = .ok s
      ∧ s.delayIters = 0 ∧ s.junk = 0) := by
  constructor
  · obtain ⟨h1, h2⟩ := (delay_iterations_per_access (2 ^ 64) 2 (le_refl _)
      (by decide)).2.2.1 (fun k => (k : Int)) 4 3 1 (by decide) (by decide) (by decide)
    obtain ⟨s, hs⟩ := h2 (by decide)
    obtain ⟨e1, e2, _⟩ := h1 s hs
    exact ⟨s, hs, e1, e2⟩
  · obtain ⟨h1, h2⟩ := (delay_iterations_per_access (2 ^ 64) 0 (le_refl _)
      (by decide)).2.2.2 10 3 2 1 0 (by decide) (by decide) (by decide) (by decide) (by decide)
    obtain ⟨s, hs⟩ := h2 (by decide)
    exact ⟨s, hs, (h1 s hs).2 rfl⟩

/-- C7, counterexample: with `arraySize = 2 ^ 61 + 1` the byte count
`sizeof(long) * arraySize` wraps to 8 and the mapping has one cell; `rand()`
returning 1804289383 selects index 1804289383, which is in `[0, arraySize)`
but outside the buffer, and the run (no initialisation, one access) halts at
that read. -/
theorem random_read_outside_mapping :
    (0 : Nat) < 2 ^ 61 + 1 ∧ (1804289383 : Nat) ≤ RAND_MAX
    ∧ Randpd.randIndex 1804289383 (2 ^ 61 + 1) = some 1804289383
    ∧ (1804289383 : Nat) < 2 ^ 61 + 1
    ∧ (mmap (wrap (sizeofLong * (2 ^ 61 + 1)))).len = 1
    ∧ haltValue (fun s => s.loads)
        (Randpd.mainBody (2 ^ 64) (fun _ => 1804289383) (2 ^ 61 + 1) 1 0
          { State.start with doInit := 0 })
      = some (Halt.badAccess, []) := by
  decide

/-- C7 (amended): for every `arraySize > 0` and every value `r` that `rand()`
can return (`0 <= r <= RAND_MAX`), the index `rand() % arraySize` is `r`
modulo `arraySize` and lies in `[0, arraySize)`.  The mapping requested with
`sizeof(long) * arraySize` bytes has `arraySize mod 2 ^ 61` cells; for
`arraySize < 2 ^ 61` it has `arraySize` cells, the run returns normally, and
every read of the access phase is at such an index, inside the buffer. -/
theorem random_index_in_bounds (arraySize : Nat) (hA0 : 0 < arraySize) :
    (∀ r : Int, 0 ≤ r → r ≤ RAND_MAX →
      ∃ idx, Randpd.randIndex r arraySize = some idx ∧ idx = r.toNat % arraySize
        ∧ idx < arraySize)
    ∧ (mmap (wrap (sizeofLong * arraySize))).len = arraySize % 2 ^ 61
    ∧ (∀ (fuel : Nat) (rand : Nat → Int) (accesses : Nat) (delay di : Int),
        2 ^ 64 ≤ fuel → arraySize < 2 ^ 61 → accesses < 2 ^ 64 →
        (∀ k, 0 ≤ rand k ∧ rand k ≤ RAND_MAX) →
        ∃ s b, Randpd.mainBody fuel rand arraySize accesses delay
              { State.start with doInit := di } = .ok s
          ∧ s.a = some b ∧ b.len = arraySize
          ∧ s.loads = (List.range' 0 accesses).map (fun k => (rand k).toNat % arraySize)
          ∧ ∀ x ∈ s.loads, x < b.len) := by
  have hidx : ∀ r : Int, 0 ≤ r → r ≤ RAND_MAX → toU64 r = r.toNat := by
    intro r h0 h1
    have h2 : (RAND_MAX : Int) = 2147483647 := rfl
    have := toU64_of_nonneg h0 (by omega)
    omega
  refine ⟨?_, len_mmap_mod arraySize, ?_⟩
  · intro r h0 h1
    refine ⟨toU64 r % arraySize, by simp [Randpd.randIndex, Nat.ne_of_gt hA0], ?_,
      Nat.mod_lt _ hA0⟩
    rw [hidx r h0 h1]
  · intro fuel rand accesses delay di hf hA hN hrand
    obtain ⟨s, ms, ml, hcase, hok, _, _, _, _, hl, _, _, _, _, b, hb, hlen, _⟩ :=
      Randpd.random_outcome fuel rand arraySize accesses delay di hf hA0 (by omega) hN
    have hrun := hok hA
    have hml : ml = accesses := by
      rcases hcase with ⟨_, h, _⟩ | herr
      · exact h
      · exact absurd (herr.symm.trans hrun) (by simp)
    have hlen2 : b.len = arraySize := by rw [hlen]; omega
    have hl2 : s.loads = (List.range' 0 accesses).map (fun k => (rand k).toNat % arraySize) := by
      rw [hl, hml]
      apply List.map_congr_left
      intro k _
      rw [hidx (rand k) (hrand k).1 (hrand k).2]
    refine ⟨s, b, hrun, hb, hlen2, hl2, ?_⟩
    intro x hx
    rw [hl2] at hx
    obtain ⟨k, _, rfl⟩ := List.mem_map.1 hx
    rw [hlen2]
    exact Nat.mod_lt _ hA0

/-- C7, witness: `arraySize = 4`, where `rand()` returning 7 selects index 3. -/
theorem random_index_in_bounds_witness :
    ∃ idx, Randpd.randIndex 7 4 = some idx ∧ idx = (7 : Int).toNat % 4 ∧ idx < 4 :=
  (random_index_in_bounds 4 (by decide)).1 7 (by decide) (by decide)

/-! ## Monotonicity of the progress counter -/

theorem logExt_succ (p u c : Nat) :
    logExt p u (c + 1) = wrap (p + u) :: logExt (wrap (p + u)) u c := by
  rw [Nat.add_comm c 1, logExt_add, logExt_one, one_mul, List.singleton_append]

theorem chain_logExt (u c : Nat) : ∀ p, p + c * u < 2 ^ 64 →
    List.Chain (· ≤ ·) p (logExt p u c) := by
  induction c with
  | zero => intro p _; exact List.Chain.nil
  | succ c ih =>
    intro p h
    have h1 : p + u + c * u < 2 ^ 64 := by
      have : (c + 1) * u = c * u + u := Nat.succ_mul c u
      omega
    have hw : wrap (p + u) = p + u := wrap_of_lt (by omega)
    rw [logExt_succ, hw]
    exact List.Chain.cons (Nat.le_add_right _ _) (ih (p + u) h1)

theorem mem_logExt_le {p u c x : Nat} (hx : x ∈ logExt p u c) : x ≤ p + c * u := by
  obtain ⟨k, hk, rfl⟩ := List.mem_map.1 hx
  have hk2 : k < 1 + c := (List.mem_range'_1.1 hk).2
  have h1 : k * u ≤ c * u := Nat.mul_le_mul_right u (by omega)
  exact le_trans (Nat.mod_le _ _) (by omega)

/-- The invariant of C6 on a log that consists of an initialisation part and
an access part. -/
theorem log_monotone_bounded (cI u N bound : Nat) (hcase : u = 1 ∨ (cI = 0 ∧ u = 0))
    (hb : cI + N * u ≤ bound) (hlt : bound < 2 ^ 64) :
    List.Chain (· ≤ ·) 0 (logExt 0 1 cI ++ logExt (wrap cI) u N)
    ∧ ∀ p ∈ logExt 0 1 cI ++ logExt (wrap cI) u N, p ≤ bound := by
  rcases hcase with h1 | ⟨h0, h1⟩
  · subst h1
    have e : logExt 0 1 cI ++ logExt (wrap cI) 1 N = logExt 0 1 (cI + N) := by
      rw [logExt_add, Nat.zero_add, Nat.mul_one]
    rw [e]
    rw [Nat.mul_one] at hb
    exact ⟨chain_logExt 1 (cI + N) 0 (by omega), fun p hp => by
      have := mem_logExt_le hp
      omega⟩
  · subst h0 h1
    have e : logExt 0 1 0 ++ logExt (wrap 0) 0 N = logExt 0 0 N := by
      rw [logExt_zero, List.nil_append]; rfl
    rw [e]
    exact ⟨chain_logExt 0 N 0 (by omega), fun p hp => by
      have := mem_logExt_le hp
      omega⟩

theorem length_passIdx_le (A st : Nat) : (passIdx A st).length ≤ A / st := by
  unfold passIdx
  split
  · rw [length_strideIdx]
  · exact Nat.zero_le _

/-- C6, counterexample: `rpd 10 3 -1 0` satisfies `arraySize > 0` and
`0 < stride <= arraySize`, and its total is below `2 ^ 64`, yet the run ends
with `progress = 3` and `completion = 0`: the negative `reps`, converted to
unsigned in the product, cancels the initialisation steps, and `progress`
exceeds `completion` by three. -/
theorem negative_reps_progress_exceeds_completion :
    (0 : Nat) < 10 ∧ (0 : Nat) < 3 ∧ (3 : Nat) ≤ 10
    ∧ finalValue (fun s => (s.progress, s.completion, s.progressLog))
        (Rpd.mainBody (2 ^ 64) 10 3 (-1) 0 State.start)
      = some (3, 0, [1, 2, 3])
    ∧ ¬ (3 ≤ 0 + 1) := by
  decide

/-- C6 (amended): in every valid configuration with a non-negative `reps`
whose total is below `2 ^ 64`, with initialisation enabled or disabled, the
run returns normally or halts at an access outside the mapping (it returns
normally when `arraySize < 2 ^ 61`); up to that point `progressLog` holds the
value of `progress` after each initialisation step and each access step, each
value is at least the previous one (starting from 0), and none exceeds
`completion` (so none exceeds it by more than the one element summed in an
access iteration). -/
theorem progress_log_monotone_bounded :
    (∀ (fuel : Nat) (rand : Nat → Int) (arraySize accesses : Nat) (delay di : Int),
      2 ^ 64 ≤ fuel → 0 < arraySize → arraySize + accesses < 2 ^ 64 →
      ∃ s, (Randpd.mainBody fuel rand arraySize accesses delay
              { State.start with doInit := di } = .ok s
            ∨ Randpd.mainBody fuel rand arraySize accesses delay
              { State.start with doInit := di } = .error (Halt.badAccess, s))
        ∧ (arraySize < 2 ^ 61 →
            Randpd.mainBody fuel rand arraySize accesses delay
              { State.start with doInit := di } = .ok s)
        ∧ s.completion = arraySize + accesses
        ∧ s.progressLog.length = s.stores.length + s.loads.length
        ∧ List.Chain (· ≤ ·) 0 s.progressLog
        ∧ ∀ p ∈ s.progressLog, p ≤ s.completion)
    ∧ (∀ (fuel arraySize stride reps : Nat) (delay di d : Int),
      2 ^ 64 ≤ fuel → stride < 2 ^ 31 → reps < 2 ^ 31 → IsInt delay →
      0 < stride → stride ≤ arraySize → arraySize < 2 ^ 64 →
      arraySize / stride + reps * (if d ≠ 0 then stride else 1) * (arraySize / stride)
        < 2 ^ 64 →
      ∃ s, (Rpd.mainBody fuel arraySize (stride : Int) (reps : Int) delay
              { State.start with doInit := di, doOuterLoop := d } = .ok s
            ∨ Rpd.mainBody fuel arraySize (stride : Int) (reps : Int) delay
              { State.start with doInit := di, doOuterLoop := d }
                = .error (Halt.badAccess, s))
        ∧ (arraySize < 2 ^ 61 →
            Rpd.mainBody fuel arraySize (stride : Int) (reps : Int) delay
              { State.start with doInit := di, doOuterLoop := d } = .ok s)
        ∧ s.completion = arraySize / stride
            + reps * (if d ≠ 0 then stride else 1) * (arraySize / stride)
        ∧ s.progressLog.length = s.stores.length + s.loads.length
        ∧ List.Chain (· ≤ ·) 0 s.progressLog
        ∧ ∀ p ∈ s.progressLog, p ≤ s.completion) := by
  constructor
  · intro fuel rand arraySize accesses delay di hf hA0 htot
    obtain ⟨s, ms, ml, hcase, hok, hms, hml, hc, hst, hl, _, hlog, _⟩ :=
      Randpd.random_outcome fuel rand arraySize accesses delay di hf hA0 (by omega) (by omega)
    have hc1 : s.completion = arraySize + accesses := by rw [hc, wrap_of_lt htot]
    have hmb := log_monotone_bounded ms (if di ≠ 0 then 1 else 0) ml (arraySize + accesses)
      (by
        by_cases h : di ≠ 0
        · exact Or.inl (if_pos h)
        · rw [if_neg h] at hms ⊢
          exact Or.inr ⟨by omega, rfl⟩)
      (by
        by_cases h : di ≠ 0
        · rw [if_pos h] at hms ⊢; omega
        · rw [if_neg h] at hms ⊢; omega) htot
    rw [← hlog, ← hc1] at hmb
    refine ⟨s, ?_, hok, hc1, ?_, hmb.1, hmb.2⟩
    · rcases hcase with ⟨_, _, h⟩ | h
      · exact Or.inl h
      · exact Or.inr h
    · rw [hlog, hst, hl]
      simp [length_logExt]
  · intro fuel arraySize stride reps delay di d hf hst2 hR hd hst hle hA htot
    obtain ⟨s, Ls, Ll, hcase, hc, hsto, hl, _, hlog, _⟩ :=
      Rpd.strided_outcome fuel arraySize stride (reps : Int) delay di d hf hst hst2 hle hA
        ⟨by omega, by exact_mod_cast hR⟩ hd
    have hc1 : s.completion = arraySize / stride
        + reps * (if d ≠ 0 then stride else 1) * (arraySize / stride) := by
      rw [hc, Rpd.toU64_reps_outloop reps stride d hR hst2, wrap_add_wrap_right, wrap_of_lt htot]
    have hle1 := length_passIdx_le arraySize stride
    have hle2 : reps * ((if d ≠ 0 then stride else 1) * (passIdx arraySize stride).length)
        ≤ reps * (if d ≠ 0 then stride else 1) * (arraySize / stride) := by
      rw [Nat.mul_assoc]
      exact Nat.mul_le_mul_left _ (Nat.mul_le_mul_left _ hle1)
    have hLs : Ls.length ≤ arraySize / stride ∧ (di = 0 → Ls.length = 0) := by
      rcases hcase with ⟨h, _, _⟩ | ⟨h, _, _, _, _⟩
      · rw [h]
        by_cases hi : di ≠ 0
        · rw [if_pos hi]; exact ⟨hle1, fun h0 => absurd h0 hi⟩
        · rw [if_neg hi]; exact ⟨Nat.zero_le _, fun _ => rfl⟩
      · rw [h]; exact ⟨Nat.zero_le _, fun _ => rfl⟩
    have hLl : Ll.length
        ≤ reps * (if d ≠ 0 then stride else 1) * (arraySize / stride) := by
      rcases hcase with ⟨_, h, _⟩ | ⟨_, h, _, _, _⟩
      · rw [h, length_repeatList, length_repeatList, Int.toNat_ofNat]
        exact hle2
      · rw [h]; exact Nat.zero_le _
    have hmb := log_monotone_bounded Ls.length (if di ≠ 0 then 1 else 0) Ll.length
      (arraySize / stride + reps * (if d ≠ 0 then stride else 1) * (arraySize / stride))
      (by
        by_cases h : di ≠ 0
        · exact Or.inl (if_pos h)
        · rw [if_neg h]
          exact Or.inr ⟨hLs.2 (not_not.1 h), rfl⟩)
      (by
        by_cases h : di ≠ 0
        · rw [if_pos h, Nat.mul_one]; omega
        · rw [if_neg h, Nat.mul_zero]; omega) htot
    rw [← hlog, ← hc1] at hmb
    refine ⟨s, ?_, ?_, hc1, ?_, hmb.1, hmb.2⟩
    · rcases hcase with ⟨_, _, h⟩ | ⟨_, _, _, _, h⟩
      · exact Or.inl h
      · exact Or.inr h
    · intro h61
      rcases hcase with ⟨_, _, h⟩ | ⟨_, _, h, _, _⟩
      · exact h
      · omega
    · rw [hlog, hsto, hl]
      simp [length_logExt]

/-- C6, witness: a random run (`arraySize = 4`, three accesses) without
initialisation and a strided run (`arraySize = 10`, `stride = 3`, two
repetitions with the outer loop) with it. -/
theorem progress_log_monotone_bounded_witness :
    (∃ s, Randpd.mainBody (2 ^ 64) (fun k => (k : Int)) 4 3 0
          { State.start with doInit := 0 } = .ok s
      ∧ s.completion = 4 + 3
      ∧ s.progressLog.length = s.stores.length + s.loads.length
      ∧ List.Chain (· ≤ ·) 0 s.progressLog
      ∧ ∀ p ∈ s.progressLog, p ≤ s.completion)
    ∧ (∃ s, Rpd.mainBody (2 ^ 64) 10 ((3 : Nat) : Int) ((2 : Nat) : Int) 0
          { State.start with doInit := 1, doOuterLoop := 1 } = .ok s
      ∧ s.completion = 10 / 3 + 2 * (if (1 : Int) ≠ 0 then 3 else 1) * (10 / 3)
      ∧ s.progressLog.length = s.stores.length + s.loads.length
      ∧ List.Chain (· ≤ ·) 0 s.progressLog
      ∧ ∀ p ∈ s.progressLog, p ≤ s.completion) := by
  constructor
  · obtain ⟨s, _, h2, h3⟩ := progress_log_monotone_bounded.1 (2 ^ 64) (fun k => (k : Int))
      4 3 0 0 (le_refl _) (by decide) (by decide)
    exact ⟨s, h2 (by decide), h3⟩
  · obtain ⟨s, _, h2, h3⟩ := progress_log_monotone_bounded.2 (2 ^ 64) 10 3 2 0 1 1 (le_refl _)
      (by decide) (by decide) (by decide) (by decide) (by decide) (by decide) (by decide)
    exact ⟨s, h2 (by decide), h3⟩

/-! ## Distribution of the random index -/

theorem selectors_eq (n i : Nat) (hn : 0 < n) (hi : i < n) :
    selectors n i = 2 ^ 31 / n + if i < 2 ^ 31 % n then 1 else 0 := by
  have hfilter : Finset.filter (fun r : Nat => Randpd.randIndex (r : Int) n = some i)
      (Finset.range (RAND_MAX + 1))
      = Finset.filter (fun r : Nat => r ≡ i [MOD n]) (Finset.range (RAND_MAX + 1)) := by
    apply Finset.filter_congr
    intro r hr
    have hr1 : r < 2 ^ 64 := by
      have := Finset.mem_range.1 hr
      have h2 : RAND_MAX + 1 = 2147483648 := rfl
      omega
    simp only [Randpd.randIndex, Nat.ne_of_gt hn, if_false, Option.some.injEq,
      toU64_natCast hr1, Nat.ModEq, Nat.mod_eq_of_lt hi]
  have hR : RAND_MAX + 1 = 2 ^ 31 := rfl
  unfold selectors
  rw [Nat.count_eq_card_filter_range, hfilter, ← Nat.count_eq_card_filter_range,
    Nat.count_modEq_card _ hn i, Nat.mod_eq_of_lt hi, hR]

/-- C8, counterexample: with `arraySize = 3` index 0 is selected by
715827883 of the `2 ^ 31` outputs of `rand()` and index 2 by 715827882; with
`arraySize = 2 ^ 31 + 1` index `2 ^ 31` is selected by no output. -/
theorem random_index_not_uniform :
    selectors 3 0 = 715827883 ∧ selectors 3 2 = 715827882
    ∧ selectors 3 0 ≠ selectors 3 2
    ∧ selectors (2 ^ 31 + 1) (2 ^ 31) = 0 := by
  have h0 := selectors_eq 3 0 (by decide) (by decide)
  have h2 := selectors_eq 3 2 (by decide) (by decide)
  have h3 := selectors_eq (2 ^ 31 + 1) (2 ^ 31) (by decide) (by decide)
  norm_num at h0 h2 h3
  exact ⟨h0, h2, by rw [h0, h2]; decide, h3⟩

/-- C8 (amended): for every `arraySize > 0` and `index < arraySize`, the
number of values `r` in `[0, RAND_MAX]` with `r % arraySize = index` is
`2 ^ 31 / arraySize`, plus one when `index < 2 ^ 31 % arraySize`.  The counts
of two indices differ by at most one, they are equal when `arraySize` divides
`2 ^ 31`, and an index is selected by some output exactly when it is at most
`RAND_MAX`. -/
theorem random_index_selection_counts (arraySize index : Nat) (hA : 0 < arraySize)
    (hi : index < arraySize) :
    selectors arraySize index
      = 2 ^ 31 / arraySize + (if index < 2 ^ 31 % arraySize then 1 else 0)
    ∧ (∀ j < arraySize, selectors arraySize index ≤ selectors arraySize j + 1)
    ∧ (2 ^ 31 % arraySize = 0 →
        ∀ j < arraySize, selectors arraySize index = selectors arraySize j)
    ∧ (0 < selectors arraySize index ↔ index ≤ RAND_MAX) := by
  have h := selectors_eq arraySize index hA hi
  refine ⟨h, ?_, ?_, ?_⟩
  · intro j hj
    rw [h, selectors_eq arraySize j hA hj]
    split <;> split <;> omega
  · intro hdiv j hj
    rw [h, selectors_eq arraySize j hA hj, hdiv]
    simp
  · have hR : RAND_MAX = 2 ^ 31 - 1 := rfl
    rw [h, hR]
    by_cases hle : arraySize ≤ 2 ^ 31
    · have h1 : 0 < 2 ^ 31 / arraySize := Nat.div_pos hle hA
      constructor
      · intro _; omega
      · intro _; omega
    · have h1 : 2 ^ 31 / arraySize = 0 := Nat.div_eq_of_lt (by omega)
      have h2 : 2 ^ 31 % arraySize = 2 ^ 31 := Nat.mod_eq_of_lt (by omega)
      rw [h1, h2]
      split <;> omega

/-- C8, witness: `arraySize = 3`, `index = 1`. -/
theorem random_index_selection_counts_witness :
    selectors 3 1 = 2 ^ 31 / 3 + (if 1 < 2 ^ 31 % 3 then 1 else 0)
    ∧ (∀ j < 3, selectors 3 1 ≤ selectors 3 j + 1)
    ∧ (2 ^ 31 % 3 = 0 → ∀ j < 3, selectors 3 1 = selectors 3 j)
    ∧ (0 < selectors 3 1 ↔ 1 ≤ RAND_MAX) :=
  random_index_selection_counts 3 1 (by decide) (by decide)

end Contention
